import Mathlib

/-!
Verification of the batchexecute protocol codec and call-executor logic of
the notebooklm-mcp-2026 repository (`protocol.py`, `client.py`, `config.py`).

The Python code is shallowly embedded: JSON values are modelled by the
inductive type `Json` (integers stand for JSON numbers; the protocol
payloads relevant here use only integers, strings, booleans, null, arrays
and objects), Python strings are modelled as `List Char`, and the stdlib
functions `json.dumps` (with its default `ensure_ascii=True` and the
compact separators used by the code), `json.loads`, `urllib.parse.quote`
and `urllib.parse.unquote` are embedded as executable Lean functions.
-/

/-- Python strings are modelled as lists of unicode scalar values. -/
abbrev Str := List Char

/-- JSON values as produced by `json.loads` / consumed by `json.dumps`.
Numbers are modelled as integers (the protocol payloads use only
integers). -/
inductive Json where
  | null : Json
  | bool (b : Bool) : Json
  | num (n : Int) : Json
  | str (s : Str) : Json
  | arr (xs : List Json) : Json
  | obj (kvs : List (Str × Json)) : Json
deriving Repr

mutual

/-- Structural equality of JSON values (Python `==` on decoded values). -/
def beqJson : Json → Json → Bool
  | .null, .null => true
  | .bool a, .bool b => a == b
  | .num a, .num b => a == b
  | .str a, .str b => a == b
  | .arr a, .arr b => beqJsonList a b
  | .obj a, .obj b => beqJsonMembers a b
  | _, _ => false

/-- Elementwise equality of JSON arrays. -/
def beqJsonList : List Json → List Json → Bool
  | [], [] => true
  | a :: as, b :: bs => beqJson a b && beqJsonList as bs
  | _, _ => false

/-- Memberwise equality of JSON objects. -/
def beqJsonMembers : List (Str × Json) → List (Str × Json) → Bool
  | [], [] => true
  | (k1, v1) :: as, (k2, v2) :: bs => k1 == k2 && beqJson v1 v2 && beqJsonMembers as bs
  | _, _ => false

end

/-- The character for a single decimal digit. -/
def digitChar (d : Nat) : Char := Char.ofNat (48 + d)

/-- Lowercase hexadecimal digit character (`%x` formatting in Python). -/
def hexChar (d : Nat) : Char :=
  if d < 10 then Char.ofNat (48 + d) else Char.ofNat (87 + d)

/-- Uppercase hexadecimal digit character (as emitted by `urllib.parse.quote`). -/
def hexCharUpper (d : Nat) : Char :=
  if d < 10 then Char.ofNat (48 + d) else Char.ofNat (55 + d)

/-- Numeric value of a hexadecimal digit character, if it is one. -/
def fromHexChar (c : Char) : Option Nat :=
  if 48 ≤ c.toNat ∧ c.toNat ≤ 57 then some (c.toNat - 48)
  else if 97 ≤ c.toNat ∧ c.toNat ≤ 102 then some (c.toNat - 87)
  else if 65 ≤ c.toNat ∧ c.toNat ≤ 70 then some (c.toNat - 55)
  else none

/-- Four lowercase hex digits, as in Python's `\uXXXX` escapes. -/
def hex4 (n : Nat) : List Char :=
  [hexChar (n / 4096 % 16), hexChar (n / 256 % 16), hexChar (n / 16 % 16), hexChar (n % 16)]

/-- Value of four hex digit characters. -/
def hex4Val (a b c d : Char) : Option Nat :=
  match fromHexChar a, fromHexChar b, fromHexChar c, fromHexChar d with
  | some ha, some hb, some hc, some hd => some (4096 * ha + 256 * hb + 16 * hc + hd)
  | _, _, _, _ => none

/-- Decimal digit characters of a natural number (`repr(n)` in Python). -/
def natToChars (n : Nat) : List Char :=
  if n = 0 then ['0'] else ((Nat.digits 10 n).map digitChar).reverse

/-- Decimal representation of an integer (`repr(i)` in Python). -/
def intToChars : Int → List Char
  | .ofNat n => natToChars n
  | .negSucc m => '-' :: natToChars (m + 1)

/-- How `json.dumps` (default `ensure_ascii=True`) renders one character of
a string: `"` and `\` get a backslash escape, the usual control-character
shorthands apply, any other character outside `0x20..0x7e` is rendered as
`\uXXXX` (a surrogate pair for astral characters). -/
def escapeChar (c : Char) : List Char :=
  if c = '"' then ['\\', '"']
  else if c = '\\' then ['\\', '\\']
  else if c.toNat = 8 then ['\\', 'b']
  else if c = '\t' then ['\\', 't']
  else if c = '\n' then ['\\', 'n']
  else if c.toNat = 12 then ['\\', 'f']
  else if c.toNat = 13 then ['\\', 'r']
  else if c.toNat < 32 ∨ 126 < c.toNat then
    if c.toNat < 65536 then '\\' :: 'u' :: hex4 c.toNat
    else
      let v := c.toNat - 65536
      '\\' :: 'u' :: hex4 (55296 + v / 1024) ++ '\\' :: 'u' :: hex4 (56320 + v % 1024)
  else [c]

/-- The serialized form of a string body (without the surrounding quotes). -/
def escapeStr (s : Str) : List Char := (s.map escapeChar).flatten

mutual

/-- Embedding of `json.dumps(value, separators=(",", ":"))`. -/
def serVal : Json → List Char
  | .num n => intToChars n
  | .str s => '"' :: escapeStr s ++ ['"']
  | .null => ['n', 'u', 'l', 'l']
  | .bool false => ['f', 'a', 'l', 's', 'e']
  | .bool true => ['t', 'r', 'u', 'e']
  | .arr xs => '[' :: serList xs ++ [']']
  | .obj kvs => '\x7b' :: serMembers kvs ++ ['\x7d']

/-- Comma-separated serialization of array elements. -/
def serList : List Json → List Char
  | [] => []
  | [x] => serVal x
  | x :: y :: rest => serVal x ++ ',' :: serList (y :: rest)

/-- Comma-separated serialization of object members. -/
def serMembers : List (Str × Json) → List Char
  | [] => []
  | [(k, v)] => '"' :: escapeStr k ++ '"' :: ':' :: serVal v
  | (k, v) :: m :: rest =>
      '"' :: escapeStr k ++ '"' :: ':' :: serVal v ++ ',' :: serMembers (m :: rest)

end

/-- `json.dumps(value, separators=(",", ":"))` as used throughout `protocol.py`. -/
def jsonDumps (j : Json) : Str := serVal j

/-- JSON whitespace accepted between tokens by `json.loads`. -/
def isJsonWs (c : Char) : Bool :=
  c = ' ' ∨ c = '\t' ∨ c = '\n' ∨ c.toNat = 13

/-- Skip JSON whitespace. -/
def skipWs (cs : List Char) : List Char := cs.dropWhile isJsonWs

/-- Accumulate a run of decimal digits. -/
def readDigitsAux (acc : Nat) : List Char → Nat × List Char
  | [] => (acc, [])
  | c :: rest =>
      if c.isDigit then readDigitsAux (10 * acc + (c.toNat - 48)) rest
      else (acc, c :: rest)

/-- Read a `\uXXXX` low surrogate immediately following a decoded high
surrogate, if present (the lookahead `json.loads` performs when pairing). -/
def readLowSurrogate : List Char → Option (Nat × List Char)
  | c1 :: c2 :: e :: f :: g :: h :: r2 =>
    if c1 = '\\' ∧ c2 = 'u' then
      match hex4Val e f g h with
      | some m => if 56320 ≤ m ∧ m < 57344 then some (m, r2) else none
      | none => none
    else none
  | _ => none

/-- Decode one backslash escape (the part after the backslash), as
`json.loads` does: the shorthand escapes plus `\uXXXX`, pairing a high
surrogate with an immediately following `\uXXXX` low surrogate. -/
def readEsc : List Char → Option (Char × List Char)
  | [] => none
  | c :: r =>
    if c = '"' then some ('"', r)
    else if c = '\\' then some ('\\', r)
    else if c = '/' then some ('/', r)
    else if c = 'b' then some (Char.ofNat 8, r)
    else if c = 'f' then some (Char.ofNat 12, r)
    else if c = 'n' then some ('\n', r)
    else if c = 'r' then some (Char.ofNat 13, r)
    else if c = 't' then some ('\t', r)
    else if c = 'u' then
      match r with
      | a :: b :: c2 :: d :: r1 =>
        match hex4Val a b c2 d with
        | none => none
        | some n =>
          if 55296 ≤ n ∧ n < 56320 then
            match readLowSurrogate r1 with
            | some (m, r2) => some (Char.ofNat (65536 + (n - 55296) * 1024 + (m - 56320)), r2)
            | none => some (Char.ofNat n, r1)
          else some (Char.ofNat n, r1)
      | _ => none
    else none

/-- Fuel-indexed reader for a JSON string body up to the closing quote
(strict mode: raw control characters are rejected, as by `json.loads`). -/
def readStrFuel : Nat → List Char → Option (Str × List Char)
  | 0, _ => none
  | Nat.succ _, [] => none
  | Nat.succ fuel, c :: rest =>
    if c = '"' then some ([], rest)
    else if c = '\\' then
      match readEsc rest with
      | none => none
      | some (e, r) =>
        match readStrFuel fuel r with
        | none => none
        | some (s, r2) => some (e :: s, r2)
    else if c.toNat < 32 then none
    else
      match readStrFuel fuel rest with
      | none => none
      | some (s, r2) => some (c :: s, r2)

/-- Read a JSON string body up to the closing quote. -/
def readStrAux (cs : List Char) : Option (Str × List Char) :=
  readStrFuel (cs.length + 1) cs

/-- Is the first character this one? -/
def headIs (c : Char) : List Char → Bool
  | c2 :: _ => c2 = c
  | [] => false

/-- `null` keyword tail after the leading `n`. -/
def parseNullTail : List Char → Option (Json × List Char)
  | 'u' :: 'l' :: 'l' :: r => some (.null, r)
  | _ => none

/-- `true` keyword tail after the leading `t`. -/
def parseTrueTail : List Char → Option (Json × List Char)
  | 'r' :: 'u' :: 'e' :: r => some (.bool true, r)
  | _ => none

/-- `false` keyword tail after the leading `f`. -/
def parseFalseTail : List Char → Option (Json × List Char)
  | 'a' :: 'l' :: 's' :: 'e' :: r => some (.bool false, r)
  | _ => none

/-- String value after the opening quote. -/
def parseStrTail (rest : List Char) : Option (Json × List Char) :=
  (readStrAux rest).map (fun p => (.str p.1, p.2))

/-- Negative number after the leading minus sign. -/
def parseNegTail : List Char → Option (Json × List Char)
  | c2 :: rest2 =>
    if c2.isDigit then
      some (.num (-((readDigitsAux (c2.toNat - 48) rest2).1 : Int)),
        (readDigitsAux (c2.toNat - 48) rest2).2)
    else none
  | [] => none


mutual

/-- Fuel-indexed JSON value parser (the core of `json.loads`): skip
whitespace, then dispatch on the first character. -/
def parseVal : Nat → List Char → Option (Json × List Char)
  | 0, _ => none
  | Nat.succ fuel, cs => parseValCore fuel (skipWs cs)
termination_by n _ => (n, 0)

/-- Dispatch on the first non-whitespace character. -/
def parseValCore : Nat → List Char → Option (Json × List Char)
  | _, [] => none
  | fuel, c :: rest =>
    if c = 'n' then parseNullTail rest
    else if c = 't' then parseTrueTail rest
    else if c = 'f' then parseFalseTail rest
    else if c = '"' then parseStrTail rest
    else if c = '[' then
      if headIs ']' (skipWs rest) then some (.arr [], (skipWs rest).drop 1)
      else (parseElems fuel rest).map (fun p => (.arr p.1, p.2))
    else if c = '\x7b' then
      if headIs '\x7d' (skipWs rest) then some (.obj [], (skipWs rest).drop 1)
      else (parseMembers fuel rest).map (fun p => (.obj p.1, p.2))
    else if c = '-' then parseNegTail rest
    else if c.isDigit then
      some (.num ((readDigitsAux (c.toNat - 48) rest).1 : Int),
        (readDigitsAux (c.toNat - 48) rest).2)
    else none
termination_by n _ => (n, 1)

/-- Parse a nonempty comma-separated element list up to `]`. -/
def parseElems : Nat → List Char → Option (List Json × List Char)
  | 0, _ => none
  | Nat.succ fuel, cs =>
    match parseVal fuel cs with
    | none => none
    | some (v, rest) =>
      match skipWs rest with
      | [] => none
      | c :: rest2 =>
        if c = ',' then
          match parseElems fuel rest2 with
          | none => none
          | some (xs, r) => some (v :: xs, r)
        else if c = ']' then some ([v], rest2)
        else none
termination_by n _ => (n, 0)

/-- Parse a nonempty comma-separated member list up to the closing brace. -/
def parseMembers : Nat → List Char → Option (List (Str × Json) × List Char)
  | 0, _ => none
  | Nat.succ fuel, cs =>
    match skipWs cs with
    | '"' :: rest =>
      match readStrAux rest with
      | none => none
      | some (k, rest2) =>
        match skipWs rest2 with
        | ':' :: rest3 =>
          match parseVal fuel rest3 with
          | none => none
          | some (v, rest4) =>
            match skipWs rest4 with
            | [] => none
            | c :: rest5 =>
              if c = ',' then
                match parseMembers fuel rest5 with
                | none => none
                | some (kvs, r) => some ((k, v) :: kvs, r)
              else if c = '\x7d' then some ([(k, v)], rest5)
              else none
        | _ => none
    | _ => none
termination_by n _ => (n, 0)

end

/-- Embedding of `json.loads`: parse one JSON value and require only
whitespace to remain. -/
def jsonLoads (cs : Str) : Option Json :=
  match parseVal (2 * cs.length + 2) cs with
  | some (j, rest) => if skipWs rest = [] then some j else none
  | none => none

/-- UTF-8 encoding of one unicode scalar value. -/
def utf8Bytes (c : Char) : List Nat :=
  let n := c.toNat
  if n < 128 then [n]
  else if n < 2048 then [192 + n / 64, 128 + n % 64]
  else if n < 65536 then [224 + n / 4096, 128 + n / 64 % 64, 128 + n % 64]
  else [240 + n / 262144, 128 + n / 4096 % 64, 128 + n / 64 % 64, 128 + n % 64]

/-- The bytes `urllib.parse.quote` never percent-encodes (letters, digits,
`_`, `.`, `-`, `~`); with `safe=''` everything else is encoded. -/
def isUrlSafe (b : Nat) : Bool :=
  (65 ≤ b ∧ b ≤ 90) ∨ (97 ≤ b ∧ b ≤ 122) ∨ (48 ≤ b ∧ b ≤ 57) ∨
    b = 95 ∨ b = 46 ∨ b = 45 ∨ b = 126

/-- Percent-encode one byte. -/
def quoteByte (b : Nat) : List Char :=
  if isUrlSafe b then [Char.ofNat b]
  else ['%', hexCharUpper (b / 16 % 16), hexCharUpper (b % 16)]

/-- Embedding of `urllib.parse.quote(s, safe='')`. -/
def urlQuote (s : Str) : Str :=
  (((s.map utf8Bytes).flatten).map quoteByte).flatten

/-- Turn a percent-encoded string back into bytes (`%XX` escapes decoded,
an invalid escape leaves the `%` literal, other characters contribute
their UTF-8 bytes). -/
def unquoteBytes : List Char → List Nat
  | [] => []
  | c :: rest =>
    if c = '%' then
      match rest with
      | a :: b :: rest2 =>
        match fromHexChar a, fromHexChar b with
        | some ha, some hb => (16 * ha + hb) :: unquoteBytes rest2
        | _, _ => 37 :: unquoteBytes (a :: b :: rest2)
      | [a] => 37 :: unquoteBytes [a]
      | [] => [37]
    else utf8Bytes c ++ unquoteBytes rest

/-- The Unicode replacement character (decode errors use `errors='replace'`). -/
def replChar : Char := Char.ofNat 65533

mutual

/-- UTF-8 decoding with replacement on malformed input. -/
def utf8Decode : List Nat → Str
  | [] => []
  | b :: rest =>
    if b < 128 then Char.ofNat b :: utf8Decode rest
    else utf8DecodeMulti b rest
termination_by l => (l.length, 0)

/-- Decode one multi-byte UTF-8 sequence led by `b`, then continue. -/
def utf8DecodeMulti (b : Nat) (rest : List Nat) : Str :=
  if 194 ≤ b ∧ b ≤ 223 then
    match rest with
    | b2 :: rest2 =>
      if 128 ≤ b2 ∧ b2 < 192 then
        Char.ofNat ((b - 192) * 64 + (b2 - 128)) :: utf8Decode rest2
      else replChar :: utf8Decode (b2 :: rest2)
    | [] => [replChar]
  else if 224 ≤ b ∧ b ≤ 239 then
    match rest with
    | b2 :: b3 :: rest3 =>
      if (128 ≤ b2 ∧ b2 < 192) ∧ (128 ≤ b3 ∧ b3 < 192) then
        Char.ofNat ((b - 224) * 4096 + (b2 - 128) * 64 + (b3 - 128)) :: utf8Decode rest3
      else replChar :: utf8Decode (b2 :: b3 :: rest3)
    | [b2] => replChar :: utf8Decode [b2]
    | [] => [replChar]
  else if 240 ≤ b ∧ b ≤ 244 then
    match rest with
    | b2 :: b3 :: b4 :: rest4 =>
      if (128 ≤ b2 ∧ b2 < 192) ∧ (128 ≤ b3 ∧ b3 < 192) ∧ (128 ≤ b4 ∧ b4 < 192) then
        Char.ofNat ((b - 240) * 262144 + (b2 - 128) * 4096 + (b3 - 128) * 64 + (b4 - 128)) ::
          utf8Decode rest4
      else replChar :: utf8Decode (b2 :: b3 :: b4 :: rest4)
    | [b2, b3] => replChar :: utf8Decode [b2, b3]
    | [b2] => replChar :: utf8Decode [b2]
    | [] => [replChar]
  else replChar :: utf8Decode rest
termination_by (rest.length, 1)

end

/-- Embedding of `urllib.parse.unquote`. -/
def urlUnquote (s : Str) : Str := utf8Decode (unquoteBytes s)

/-- `"&".join(parts)`. -/
def joinAmp : List Str → Str
  | [] => []
  | [p] => p
  | p :: q :: rest => p ++ '&' :: joinAmp (q :: rest)

/-- Embedding of `protocol.build_request_body`: compactly JSON-serialize
the parameters, wrap them in the triple-nested envelope
`[[[rpc_id, params_json, null, "generic"]]]`, percent-encode that into an
`f.req=` field, append an `at=` field only for a non-empty token, and end
with a trailing `&`. -/
def build_request_body (rpc_id : Str) (params : Json) (csrf_token : Str) : Str :=
  let params_json := jsonDumps params
  let f_req : Json := .arr [.arr [.arr [.str rpc_id, .str params_json, .null,
    .str (String.data "generic")]]]
  let f_req_json := jsonDumps f_req
  let parts := [String.data "f.req=" ++ urlQuote f_req_json] ++
    (if csrf_token ≠ [] then [String.data "at=" ++ urlQuote csrf_token] else [])
  joinAmp parts ++ ['&']

/-- Embedding of `protocol.build_query_body`: same as `build_request_body`
but with the flat `[null, params_json]` wrapper. -/
def build_query_body (params : Json) (csrf_token : Str) : Str :=
  let params_json := jsonDumps params
  let f_req : Json := .arr [.null, .str params_json]
  let f_req_json := jsonDumps f_req
  let parts := [String.data "f.req=" ++ urlQuote f_req_json] ++
    (if csrf_token ≠ [] then [String.data "at=" ++ urlQuote csrf_token] else [])
  joinAmp parts ++ ['&']

/-- Whitespace stripped by Python's `str.strip()`. -/
def isPySpace (c : Char) : Bool :=
  c = ' ' ∨ c = '\t' ∨ c = '\n' ∨ c.toNat = 13 ∨ c.toNat = 11 ∨ c.toNat = 12

/-- Embedding of `str.strip()`. -/
def pyStrip (cs : Str) : Str :=
  ((cs.dropWhile isPySpace).reverse.dropWhile isPySpace).reverse

/-- Embedding of `str.split("\n")`. -/
def splitNl : Str → List Str
  | [] => [[]]
  | c :: rest =>
    if c = '\n' then [] :: splitNl rest
    else
      match splitNl rest with
      | l :: ls => (c :: l) :: ls
      | [] => [[c]]

/-- Does `int(line)` succeed on this (already stripped) line? -/
def isIntChars (cs : Str) : Bool :=
  match cs with
  | [] => false
  | c :: ds =>
    if c = '+' then ds ≠ [] && ds.all Char.isDigit
    else if c = '-' then ds ≠ [] && ds.all Char.isDigit
    else (c :: ds).all Char.isDigit

/-- Strip the anti-XSSI prefix `)]}'` if present. -/
def stripXssi (cs : Str) : Str :=
  match cs with
  | ')' :: ']' :: '\x7d' :: '\'' :: rest => rest
  | _ => cs

/-- The line-walking loop of `protocol.parse_response`: an integer line is
a byte-count marker (never validated) and the following line is decoded as
JSON; any other nonempty line is decoded directly; lines whose JSON fails
to parse are skipped. -/
def processLines : List Str → List Json
  | [] => []
  | l :: rest =>
    let line := pyStrip l
    if line = [] then processLines rest
    else if isIntChars line then
      match rest with
      | [] => []
      | payload :: rest2 =>
        match jsonLoads payload with
        | some j => j :: processLines rest2
        | none => processLines rest2
    else
      match jsonLoads line with
      | some j => j :: processLines rest
      | none => processLines rest

/-- Embedding of `protocol.parse_response`. -/
def parse_response (response_text : Str) : List Json :=
  processLines (splitNl (pyStrip (stripXssi response_text)))

/-- The auth-expired signature test applied to a matching entry by
`extract_rpc_result`: `len(item) > 6 and item[6] == "generic" and
isinstance(item[5], list) and 16 in item[5]`. -/
def isAuthSigFields (fields : List Json) : Bool :=
  6 < fields.length &&
  beqJson (fields.getD 6 .null) (.str (String.data "generic")) &&
  (match fields.getD 5 .null with
   | .arr l => l.any (fun x => beqJson x (.num 16))
   | _ => false)

/-- Double-decoding of the result field: a string is JSON-decoded when
possible, falling back to the raw string; non-strings pass through. -/
def decodeResult : Json → Json
  | .str s =>
    match jsonLoads s with
    | some j => j
    | none => .str s
  | v => v

/-- Inner loop of `extract_rpc_result` over the entries of one frame:
`some` means the loop returned or raised, `none` means it fell through. -/
def extractFromItems (rpcId : Str) : List Json → Option (Except Unit Json)
  | [] => none
  | .arr (f0 :: f1 :: f2 :: rf) :: rest =>
    if beqJson f0 (.str (String.data "wrb.fr")) && beqJson f1 (.str rpcId) then
      some (if isAuthSigFields (f0 :: f1 :: f2 :: rf) then .error () else .ok (decodeResult f2))
    else extractFromItems rpcId rest
  | _ :: rest => extractFromItems rpcId rest

/-- Outer loop of `extract_rpc_result` over frames. -/
def extractFromFrames (rpcId : Str) : List Json → Except Unit Json
  | [] => .ok .null
  | chunk :: rest =>
    match chunk with
    | .arr items =>
      match extractFromItems rpcId items with
      | some r => r
      | none => extractFromFrames rpcId rest
    | _ => extractFromFrames rpcId rest

/-- Embedding of `protocol.extract_rpc_result`. `.error ()` models raising
`AuthExpiredError`; Python's `None` result (both "no matching entry" and a
null payload) is `.ok .null`. -/
def extract_rpc_result (parsed_response : List Json) (rpc_id : Str) : Except Unit Json :=
  extractFromFrames rpc_id parsed_response

/-- The type discriminator read from `first_elem[4][-1]`: `1` marks an
answer; Python `bool` is an `int` subtype, so `True == 1` also counts. -/
def chunkIsAnswer (first_elem : List Json) : Bool :=
  if 4 < first_elem.length then
    match first_elem.getD 4 .null with
    | .arr type_info =>
      match type_info.getLast? with
      | some (.num n) => n == 1
      | some (.bool b) => b
      | _ => false
    | _ => false
  else false

/-- Entry scan of `protocol._extract_answer_from_chunk` over the decoded
chunk's items. -/
def scanAnswerItems : List Json → Option (Str × Bool)
  | [] => none
  | .arr (f0 :: _f1 :: f2 :: _) :: rest =>
    if beqJson f0 (.str (String.data "wrb.fr")) then
      match f2 with
      | .str inner_json_str =>
        match jsonLoads inner_json_str with
        | some (.arr (first_elem :: _)) =>
          match first_elem with
          | .arr (fe0 :: ferest) =>
            match fe0 with
            | .str answer_text =>
              if 20 < answer_text.length then
                some (answer_text, chunkIsAnswer (fe0 :: ferest))
              else scanAnswerItems rest
            | _ => scanAnswerItems rest
          | .str s => if 20 < s.length then some (s, false) else scanAnswerItems rest
          | _ => scanAnswerItems rest
        | _ => scanAnswerItems rest
      | _ => scanAnswerItems rest
    else scanAnswerItems rest
  | _ :: rest => scanAnswerItems rest

/-- Embedding of `protocol._extract_answer_from_chunk`. -/
def extractAnswerFromChunk (json_str : Str) : Option (Str × Bool) :=
  match jsonLoads json_str with
  | some (.arr (i :: rest)) => scanAnswerItems (i :: rest)
  | _ => none

/-- Fold step of `parse_query_response`: keep the strictly longest type-1
text and, separately, the strictly longest type-2 text. -/
def updateLongest (cand : Option (Str × Bool)) (la lt : Str) : Str × Str :=
  match cand with
  | none => (la, lt)
  | some (text, isAns) =>
    if text = [] then (la, lt)
    else if isAns then (if la.length < text.length then (text, lt) else (la, lt))
    else (if lt.length < text.length then (la, text) else (la, lt))

/-- Line-walking loop of `parse_query_response` (same marker structure as
`parse_response`), carrying the longest answer/thinking accumulators. -/
def pqrLoop : List Str → Str → Str → Str
  | [], la, lt => if la ≠ [] then la else lt
  | l :: rest, la, lt =>
    let line := pyStrip l
    if line = [] then pqrLoop rest la lt
    else if isIntChars line then
      match rest with
      | [] => if la ≠ [] then la else lt
      | payload :: rest2 =>
        let p := updateLongest (extractAnswerFromChunk payload) la lt
        pqrLoop rest2 p.1 p.2
    else
      let p := updateLongest (extractAnswerFromChunk line) la lt
      pqrLoop rest p.1 p.2

/-- Embedding of `protocol.parse_query_response`: the longest type-1 text
if any, else the longest type-2 text, else the empty string. -/
def parse_query_response (response_text : Str) : Str :=
  pqrLoop (splitNl (pyStrip (stripXssi response_text))) [] []

/-- `config.RETRYABLE_STATUS_CODES`. -/
def RETRYABLE_STATUS_CODES : List Nat := [429, 500, 502, 503, 504]

/-- `config.MAX_RETRIES`. -/
def MAX_RETRIES : Nat := 3

/-- `config.RETRY_BASE_DELAY` (seconds; the float arithmetic involved is
exact on these small powers of two, so rationals model it faithfully). -/
def RETRY_BASE_DELAY : ℚ := 1

/-- `config.RETRY_MAX_DELAY`. -/
def RETRY_MAX_DELAY : ℚ := 16

/-- `client.AuthenticationError`: message plus re-login hint. -/
structure AuthenticationError where
  message : Str
  hint : Str
deriving Repr, DecidableEq

/-- The default re-login hint used by `AuthenticationError.__init__`. -/
def defaultAuthHint : Str :=
  String.data "Run \x27notebook-julian login\x27 to re-authenticate."

/-- `AuthenticationError(message, hint)`: an empty hint is replaced by the
default re-login hint (`hint or "Run ..."`). -/
def mkAuthenticationError (message : Str) (hint : Str) : AuthenticationError :=
  ⟨message, if hint = [] then defaultAuthHint else hint⟩

/-- One transport interaction observed by `_call_rpc`: either
`raise_for_status` fires with a status code, or a body is received. -/
inductive NetEvent where
  | httpError (status : Nat)
  | ok (text : Str)
deriving Repr, DecidableEq

/-- The outcome `_call_rpc` surfaces to its caller. -/
inductive CallResult where
  | value (v : Json)
  | apiHttp (status : Nat)
  | apiServer (status : Nat) (attempts : Nat)
  | authError (e : AuthenticationError)
  | exhausted
deriving Repr

/-- The auth-refresh prelude of `_retry_after_auth_refresh`: if refreshing
the auth material raised (`some e`), that `AuthenticationError` propagates;
otherwise the refreshed retry's outcome stands. -/
def refreshOutcome (refresh : Option AuthenticationError)
    (retryResult : CallResult × List ℚ) : CallResult × List ℚ :=
  match refresh with
  | none => retryResult
  | some e => (.authError e, [])

/-- The `try` body outcome of `_call_rpc` once a response body was
received: a decoded value returns; the codec's Auth-Expired signal
triggers the single refresh-then-retry when unused, and raises
`AuthenticationError` with the re-login hint once used. -/
def okOutcome (res : Except Unit Json) (authRetried : Bool)
    (refresh : Option AuthenticationError) (retryResult : CallResult × List ℚ) :
    CallResult × List ℚ :=
  match res with
  | .ok v => (.value v, [])
  | .error () =>
    if authRetried = false then refreshOutcome refresh retryResult
    else (.authError (mkAuthenticationError
      (String.data "Authentication expired after retry.") defaultAuthHint), [])

/-- Embedding of `client.NotebookLMClient._call_rpc`'s control flow. The
transport is abstracted as the list of events successive attempts observe;
`refresh` is the outcome of the refresh-then-disk-reload prelude of
`_retry_after_auth_refresh` (`none` = auth material refreshed). Returns
the surfaced outcome and the backoff sleeps performed, in order. An
auth-refreshed retry restarts with `_server_retry = 0` (the recursive call
passes only `_auth_retried=True`). -/
def callRpc (rpc_id : Str) (refresh : Option AuthenticationError) :
    List NetEvent → Bool → Nat → CallResult × List ℚ
  | [], _, _ => (.exhausted, [])
  | .ok text :: rest, authRetried, _serverRetry =>
    okOutcome (extract_rpc_result (parse_response text) rpc_id) authRetried refresh
      (callRpc rpc_id refresh rest true 0)
  | .httpError status :: rest, authRetried, serverRetry =>
    if status ∈ RETRYABLE_STATUS_CODES then
      if serverRetry < MAX_RETRIES then
        let d := min (RETRY_BASE_DELAY * 2 ^ serverRetry) RETRY_MAX_DELAY
        let p := callRpc rpc_id refresh rest authRetried (serverRetry + 1)
        (p.1, d :: p.2)
      else (.apiServer status (MAX_RETRIES + 1), [])
    else if (status = 401 ∨ status = 403) ∧ authRetried = false then
      refreshOutcome refresh (callRpc rpc_id refresh rest true 0)
    else (.apiHttp status, [])

/-- `client.ConversationTurn`. -/
structure ConversationTurn where
  query : Str
  answer : Str
  turn_number : Nat
deriving Repr, DecidableEq

/-- The client's `_conversation_cache` (`dict` preserving insertion order). -/
abbrev ConversationCache := List (Str × List ConversationTurn)

/-- `self._conversation_cache.get(cid, [])` (keys are unique, so
first-match lookup is dict lookup). -/
def cacheGet : ConversationCache → Str → List ConversationTurn
  | [], _ => []
  | p :: rest, cid => if p.1 == cid then p.2 else cacheGet rest cid

/-- Store a turn list under a key (dict item assignment: replace in place,
else append at the end, preserving insertion order). -/
def cachePut : ConversationCache → Str → List ConversationTurn → ConversationCache
  | [], cid, ts => [(cid, ts)]
  | p :: rest, cid, ts =>
    if p.1 == cid then (p.1, ts) :: rest else p :: cachePut rest cid ts

/-- Embedding of `client.NotebookLMClient._cache_turn`: append a turn
numbered `len + 1`. -/
def cacheTurn (cache : ConversationCache) (cid : Str) (q a : Str) : ConversationCache :=
  let turns := cacheGet cache cid
  cachePut cache cid (turns ++ [⟨q, a, turns.length + 1⟩])

/-- Embedding of `client.NotebookLMClient._build_conversation_history`:
for each prior turn emit an answer-record then a question-record. -/
def buildConversationHistory (cache : ConversationCache) (cid : Str) : Option (List Json) :=
  let turns := cacheGet cache cid
  if turns.isEmpty then none
  else some (turns.flatMap (fun t =>
    [Json.arr [.str t.answer, .null, .num 2], Json.arr [.str t.query, .null, .num 1]]))

/-- The record `client.NotebookLMClient.query` returns. -/
structure QueryResult where
  answer : Str
  conversation_id : Str
  turn_number : Nat
  is_follow_up : Bool
deriving Repr, DecidableEq

/-- Embedding of `client.NotebookLMClient.query`'s conversation logic.
The transport is abstracted: `response_text` is the body the streaming
endpoint returned and `fresh_id` the `uuid4` minted for a new
conversation; the source-id fetch and request construction are I/O and do
not affect the fields below. Returns the result record, the updated
conversation cache, and the history rendered for this call. -/
def query (cache : ConversationCache) (query_text : Str) (conversation_id : Option Str)
    (fresh_id : Str) (response_text : Str) :
    QueryResult × ConversationCache × Option (List Json) :=
  let is_new := conversation_id.isNone
  let cid := conversation_id.getD fresh_id
  let history := if is_new then none else buildConversationHistory cache cid
  let answer := parse_query_response response_text
  let cache2 := if answer ≠ [] then cacheTurn cache cid query_text answer else cache
  let turns := cacheGet cache2 cid
  (⟨answer, cid, turns.length, !is_new⟩, cache2, history)

/-- `body.split("&")`. -/
def splitAmp : Str → List Str
  | [] => [[]]
  | c :: rest =>
    if c = '&' then [] :: splitAmp rest
    else
      match splitAmp rest with
      | l :: ls => (c :: l) :: ls
      | [] => [[c]]

/-- The percent-encoded payload of the `f.req=` field of a POST body. -/
def fReqOf (body : Str) : Option Str :=
  (splitAmp body).findSome? (fun part =>
    if (String.data "f.req=").isPrefixOf part then some (part.drop 6) else none)

/-- How many `&`-separated fields of the body start with the given prefix. -/
def countFieldsWith (pre : Str) (body : Str) : Nat :=
  ((splitAmp body).filter (fun part => pre.isPrefixOf part)).length

/-- The first entry in one frame's item list with at least three fields,
first field `"wrb.fr"` and second field equal to the target method id
(the entry `extract_rpc_result`'s scan commits to). -/
def findEntryItems (rpcId : Str) : List Json → Option (List Json)
  | [] => none
  | .arr (f0 :: f1 :: f2 :: rf) :: rest =>
    if beqJson f0 (.str (String.data "wrb.fr")) && beqJson f1 (.str rpcId) then
      some (f0 :: f1 :: f2 :: rf)
    else findEntryItems rpcId rest
  | _ :: rest => findEntryItems rpcId rest

/-- The first matching entry across all frames, in scan order. -/
def findEntry (rpcId : Str) : List Json → Option (List Json)
  | [] => none
  | chunk :: rest =>
    match chunk with
    | .arr items =>
      match findEntryItems rpcId items with
      | some f => some f
      | none => findEntry rpcId rest
    | _ => findEntry rpcId rest

/-- The result field (`item[2]`) of a matching entry. -/
def resultField (fields : List Json) : Json := fields.getD 2 .null

/-- Claim-side predicate: some frame contains an entry tagged `"wrb.fr"`
whose second field is the target method id and which carries the
auth-expired signature. -/
def hasAuthSigEntry (frames : List Json) (rpcId : Str) : Bool :=
  frames.any (fun chunk =>
    match chunk with
    | .arr items =>
      items.any (fun item =>
        match item with
        | .arr fields =>
          beqJson (fields.getD 0 .null) (.str (String.data "wrb.fr")) &&
          beqJson (fields.getD 1 .null) (.str rpcId) &&
          isAuthSigFields fields
        | _ => false)
    | _ => false)

/-- The payload lines the streaming decoder feeds to
`_extract_answer_from_chunk`, in order: the line after an integer marker
line, or the stripped line itself otherwise. -/
def payloadsOf : List Str → List Str
  | [] => []
  | l :: rest =>
    let line := pyStrip l
    if line = [] then payloadsOf rest
    else if isIntChars line then
      match rest with
      | [] => []
      | p :: rest2 => p :: payloadsOf rest2
    else line :: payloadsOf rest

/-- All candidate `(text, is_answer)` pairs `parse_query_response`
extracts from a raw streaming response. -/
def streamCandidates (response_text : Str) : List (Str × Bool) :=
  (payloadsOf (splitNl (pyStrip (stripXssi response_text)))).filterMap extractAnswerFromChunk

/-- The accumulator update of the streaming selection, as a fold step. -/
def candStep (p : Str × Str) (c : Str × Bool) : Str × Str :=
  updateLongest (some c) p.1 p.2

/-- The backoff delay `_call_rpc` sleeps before retry `k + 1`:
`min(RETRY_BASE_DELAY * 2**k, RETRY_MAX_DELAY)`. -/
def retryDelay (k : Nat) : ℚ := min (RETRY_BASE_DELAY * 2 ^ k) RETRY_MAX_DELAY

/-- A continuation is number-safe when it does not start with a digit (a
serialized number followed by it reads back unchanged). -/
def numSafe : List Char → Prop
  | [] => True
  | c :: _ => c.isDigit = false

mutual

/-- Fuel needed by `parseVal` to read back a serialized value. -/
def sizeJ : Json → Nat
  | .null => 1
  | .bool _ => 1
  | .num _ => 1
  | .str _ => 1
  | .arr xs => 1 + sizeL xs
  | .obj kvs => 1 + sizeM kvs

/-- Fuel needed by `parseElems` for a serialized element list. -/
def sizeL : List Json → Nat
  | [] => 0
  | x :: rest => 1 + sizeJ x + sizeL rest

/-- Fuel needed by `parseMembers` for a serialized member list. -/
def sizeM : List (Str × Json) → Nat
  | [] => 0
  | (_, v) :: rest => 1 + sizeJ v + sizeM rest

end

/-- Big-endian digit list of a natural number. -/
def bigDigits (n : Nat) : List Nat :=
  if n = 0 then [0] else (Nat.digits 10 n).reverse

/-- All characters of a list are ASCII. -/
abbrev allAscii (l : List Char) : Prop := ∀ c ∈ l, c.toNat < 128

theorem char_toNat_lt (c : Char) : c.toNat < 1114112 := by
  have h := c.valid
  unfold UInt32.isValidChar at h
  unfold Nat.isValidChar at h
  simp only [Char.toNat]
  omega

theorem char_not_surrogate (c : Char) : ¬(55296 ≤ c.toNat ∧ c.toNat < 57344) := by
  have h := c.valid
  unfold UInt32.isValidChar at h
  unfold Nat.isValidChar at h
  simp only [Char.toNat]
  omega

theorem toNat_ofNat_valid {b : Nat} (h1 : b < 1114112) (h2 : ¬(55296 ≤ b ∧ b < 57344)) :
    (Char.ofNat b).toNat = b := by
  have hv : b.isValidChar := by
    unfold Nat.isValidChar
    omega
  rw [Char.ofNat, dif_pos hv]
  rfl

theorem fromHexChar_hexChar {d : Nat} (h : d < 16) : fromHexChar (hexChar d) = some d :=
  (by decide : ∀ d < 16, fromHexChar (hexChar d) = some d) d h

theorem hex4Val_hex4 {n : Nat} (h : n < 65536) :
    hex4Val (hexChar (n / 4096 % 16)) (hexChar (n / 256 % 16)) (hexChar (n / 16 % 16))
      (hexChar (n % 16)) = some n := by
  unfold hex4Val
  rw [fromHexChar_hexChar (Nat.mod_lt _ (by norm_num)),
    fromHexChar_hexChar (Nat.mod_lt _ (by norm_num)),
    fromHexChar_hexChar (Nat.mod_lt _ (by norm_num)),
    fromHexChar_hexChar (Nat.mod_lt _ (by norm_num))]
  simp only [Option.some.injEq]
  omega

theorem readEsc_u_bmp {a b c2 d : Char} {n : Nat} (hn : hex4Val a b c2 d = some n)
    (hs : ¬(55296 ≤ n ∧ n < 56320)) (K : List Char) :
    readEsc ('u' :: a :: b :: c2 :: d :: K) = some (Char.ofNat n, K) := by
  simp [readEsc, hn, hs]

theorem readEsc_u_pair {a b c2 d e f g h : Char} {n m : Nat}
    (hn : hex4Val a b c2 d = some n) (hm : hex4Val e f g h = some m)
    (h55 : 55296 ≤ n ∧ n < 56320) (h56 : 56320 ≤ m ∧ m < 57344) (K : List Char) :
    readEsc ('u' :: a :: b :: c2 :: d :: '\\' :: 'u' :: e :: f :: g :: h :: K) =
      some (Char.ofNat (65536 + (n - 55296) * 1024 + (m - 56320)), K) := by
  simp [readEsc, readLowSurrogate, hn, hm, h55, h56]

theorem readEsc_quote (K : List Char) : readEsc ('"' :: K) = some ('"', K) := by
  simp [readEsc]

theorem readEsc_backslash (K : List Char) : readEsc ('\\' :: K) = some ('\\', K) := by
  simp [readEsc]

theorem readEsc_b (K : List Char) : readEsc ('b' :: K) = some (Char.ofNat 8, K) := by
  simp [readEsc]

theorem readEsc_t (K : List Char) : readEsc ('t' :: K) = some ('\t', K) := by
  simp [readEsc]

theorem readEsc_n (K : List Char) : readEsc ('n' :: K) = some ('\n', K) := by
  simp [readEsc]

theorem readEsc_f (K : List Char) : readEsc ('f' :: K) = some (Char.ofNat 12, K) := by
  simp [readEsc]

theorem readEsc_r (K : List Char) : readEsc ('r' :: K) = some (Char.ofNat 13, K) := by
  simp [readEsc]

theorem readStrFuel_cons_esc {K K' : List Char} {e : Char} (f : Nat)
    (h : readEsc K = some (e, K')) :
    readStrFuel (f + 1) ('\\' :: K) = (readStrFuel f K').map (fun p => (e :: p.1, p.2)) := by
  simp only [readStrFuel]
  rw [if_neg (by decide)]
  simp only [if_true]
  rw [h]
  cases hr : readStrFuel f K' with
  | none => simp [hr]
  | some p => simp [hr]

theorem readStrFuel_cons_raw {c : Char} (f : Nat) (K : List Char) (h1 : c ≠ '"')
    (h2 : c ≠ '\\') (h3 : ¬(c.toNat < 32)) :
    readStrFuel (f + 1) (c :: K) = (readStrFuel f K).map (fun p => (c :: p.1, p.2)) := by
  simp only [readStrFuel]
  rw [if_neg h1, if_neg h2, if_neg h3]
  cases hr : readStrFuel f K with
  | none => simp [hr]
  | some p => simp [hr]

theorem escapeStr_cons (c : Char) (s : Str) :
    escapeStr (c :: s) = escapeChar c ++ escapeStr s := by
  simp [escapeStr]

theorem readStrFuel_escape :
    ∀ (s : Str) (fuel : Nat) (rest : List Char), s.length < fuel →
      readStrFuel fuel (escapeStr s ++ '"' :: rest) = some (s, rest) := by
  intro s
  induction s with
  | nil =>
    intro fuel rest h
    obtain ⟨f, rfl⟩ : ∃ f, fuel = f + 1 := ⟨fuel - 1, by omega⟩
    simp [escapeStr, readStrFuel]
  | cons c s ih =>
    intro fuel rest h
    obtain ⟨f, rfl⟩ : ∃ f, fuel = f + 1 := ⟨fuel - 1, by omega⟩
    have hK := ih f rest (by simpa using Nat.lt_of_succ_lt_succ h)
    rw [escapeStr_cons, List.append_assoc]
    set K := escapeStr s ++ '"' :: rest with hKdef
    unfold escapeChar
    by_cases h1 : c = '"'
    · subst h1
      rw [if_pos rfl]
      rw [show (['\\', '"'] : List Char) ++ K = '\\' :: '"' :: K from rfl]
      rw [readStrFuel_cons_esc f (readEsc_quote K), hK]
      rfl
    rw [if_neg h1]
    by_cases h2 : c = '\\'
    · subst h2
      rw [if_pos rfl]
      rw [show (['\\', '\\'] : List Char) ++ K = '\\' :: '\\' :: K from rfl]
      rw [readStrFuel_cons_esc f (readEsc_backslash K), hK]
      rfl
    rw [if_neg h2]
    by_cases h3 : c.toNat = 8
    · rw [if_pos h3]
      rw [show (['\\', 'b'] : List Char) ++ K = '\\' :: 'b' :: K from rfl]
      rw [readStrFuel_cons_esc f (readEsc_b K), hK]
      have hc : Char.ofNat 8 = c := by
        rw [← h3, Char.ofNat_toNat]
      rw [hc]
      rfl
    rw [if_neg h3]
    by_cases h4 : c = '\t'
    · subst h4
      rw [if_pos rfl]
      rw [show (['\\', 't'] : List Char) ++ K = '\\' :: 't' :: K from rfl]
      rw [readStrFuel_cons_esc f (readEsc_t K), hK]
      rfl
    rw [if_neg h4]
    by_cases h5 : c = '\n'
    · subst h5
      rw [if_pos rfl]
      rw [show (['\\', 'n'] : List Char) ++ K = '\\' :: 'n' :: K from rfl]
      rw [readStrFuel_cons_esc f (readEsc_n K), hK]
      rfl
    rw [if_neg h5]
    by_cases h6 : c.toNat = 12
    · rw [if_pos h6]
      rw [show (['\\', 'f'] : List Char) ++ K = '\\' :: 'f' :: K from rfl]
      rw [readStrFuel_cons_esc f (readEsc_f K), hK]
      have hc : Char.ofNat 12 = c := by
        rw [← h6, Char.ofNat_toNat]
      rw [hc]
      rfl
    rw [if_neg h6]
    by_cases h7 : c.toNat = 13
    · rw [if_pos h7]
      rw [show (['\\', 'r'] : List Char) ++ K = '\\' :: 'r' :: K from rfl]
      rw [readStrFuel_cons_esc f (readEsc_r K), hK]
      have hc : Char.ofNat 13 = c := by
        rw [← h7, Char.ofNat_toNat]
      rw [hc]
      rfl
    rw [if_neg h7]
    by_cases h8 : c.toNat < 32 ∨ 126 < c.toNat
    · rw [if_pos h8]
      by_cases h9 : c.toNat < 65536
      · rw [if_pos h9]
        have hesc : readEsc ('u' :: hex4 c.toNat ++ K) = some (Char.ofNat c.toNat, K) := by
          have hns := char_not_surrogate c
          simp only [hex4, List.cons_append, List.nil_append]
          exact readEsc_u_bmp (hex4Val_hex4 h9) (by omega) K
        simp only [List.cons_append, List.append_assoc] at hesc ⊢
        rw [readStrFuel_cons_esc f hesc, hK, Char.ofNat_toNat]
        rfl
      · rw [if_neg h9]
        have hlt := char_toNat_lt c
        have hmod := Nat.mod_lt (c.toNat - 65536) (show 0 < 1024 by norm_num)
        have hdiv : (c.toNat - 65536) / 1024 < 1024 := by omega
        have hhi : 55296 + (c.toNat - 65536) / 1024 < 65536 := by omega
        have hlo : 56320 + (c.toNat - 65536) % 1024 < 65536 := by omega
        have hesc : readEsc ('u' :: hex4 (55296 + (c.toNat - 65536) / 1024) ++
            '\\' :: 'u' :: hex4 (56320 + (c.toNat - 65536) % 1024) ++ K) =
            some (c, K) := by
          simp only [hex4, List.cons_append, List.nil_append]
          rw [readEsc_u_pair (hex4Val_hex4 hhi) (hex4Val_hex4 hlo)
            (by omega) (by omega) K]
          rw [show 65536 + (55296 + (c.toNat - 65536) / 1024 - 55296) * 1024 +
              (56320 + (c.toNat - 65536) % 1024 - 56320) = c.toNat by
            have := Nat.div_add_mod (c.toNat - 65536) 1024
            omega]
          rw [Char.ofNat_toNat]
        simp only [List.cons_append, List.append_assoc] at hesc ⊢
        rw [readStrFuel_cons_esc f hesc, hK]
        rfl
    · rw [if_neg h8]
      rw [show ([c] : List Char) ++ K = c :: K from rfl]
      rw [readStrFuel_cons_raw f K h1 h2 (by omega), hK]
      rfl

theorem escapeChar_length_pos (c : Char) : 1 ≤ (escapeChar c).length := by
  unfold escapeChar
  repeat' split
  all_goals simp [hex4]

theorem escapeStr_length_ge (s : Str) : s.length ≤ (escapeStr s).length := by
  induction s with
  | nil => simp [escapeStr]
  | cons c s ih =>
    rw [escapeStr_cons]
    have := escapeChar_length_pos c
    simp only [List.length_append, List.length_cons]
    omega

theorem readStrAux_escape (s : Str) (rest : List Char) :
    readStrAux (escapeStr s ++ '"' :: rest) = some (s, rest) := by
  unfold readStrAux
  apply readStrFuel_escape
  have := escapeStr_length_ge s
  simp only [List.length_append, List.length_cons]
  omega

theorem char_ne_of_toNat {c c' : Char} (h : c.toNat ≠ c'.toNat) : c ≠ c' :=
  fun he => h (he ▸ rfl)

theorem digitChar_isDigit {d : Nat} (h : d < 10) :
    (digitChar d).isDigit = true ∧ (digitChar d).toNat = 48 + d :=
  (by decide : ∀ d < 10, (digitChar d).isDigit = true ∧ (digitChar d).toNat = 48 + d) d h


theorem natToChars_eq (n : Nat) : natToChars n = (bigDigits n).map digitChar := by
  unfold natToChars bigDigits
  by_cases h : n = 0
  · simp [h]
    decide
  · simp [h, List.map_reverse]

theorem bigDigits_lt (n : Nat) : ∀ d ∈ bigDigits n, d < 10 := by
  intro d hd
  unfold bigDigits at hd
  by_cases h : n = 0
  · simp [h] at hd
    omega
  · simp [h] at hd
    exact Nat.digits_lt_base (by norm_num) hd

theorem bigDigits_ne_nil (n : Nat) : bigDigits n ≠ [] := by
  unfold bigDigits
  by_cases h : n = 0
  · simp [h]
  · simp [h, Nat.digits_ne_nil_iff_ne_zero]

theorem bigDigits_foldl (n : Nat) :
    (bigDigits n).foldl (fun a d => 10 * a + d) 0 = n := by
  unfold bigDigits
  by_cases h : n = 0
  · simp [h]
  · rw [if_neg h, List.foldl_reverse]
    have hfr : ∀ L : List Nat, L.foldr (fun d a => 10 * a + d) 0 = Nat.ofDigits 10 L := by
      intro L
      induction L with
      | nil => simp [Nat.ofDigits]
      | cons d L ih =>
        simp [Nat.ofDigits, ih]
        ring
    have : (fun (x : Nat) (y : Nat) => 10 * y + x) = (fun d a => 10 * a + d) := rfl
    rw [this, hfr, Nat.ofDigits_digits]

theorem readDigitsAux_map :
    ∀ (ds : List Nat), (∀ d ∈ ds, d < 10) →
      ∀ (acc : Nat) (rest : List Char), numSafe rest →
        readDigitsAux acc (ds.map digitChar ++ rest) =
          (ds.foldl (fun a d => 10 * a + d) acc, rest) := by
  intro ds
  induction ds with
  | nil =>
    intro _ acc rest hrest
    cases rest with
    | nil => simp [readDigitsAux]
    | cons c t =>
      have hc : c.isDigit = false := hrest
      simp [readDigitsAux, hc]
  | cons d ds ih =>
    intro hlt acc rest hrest
    have hd := digitChar_isDigit (hlt d (by simp))
    simp only [List.map_cons, List.cons_append, readDigitsAux, hd.1, if_true, hd.2]
    rw [show 48 + d - 48 = d by omega]
    exact ih (fun x hx => hlt x (by simp [hx])) _ rest hrest

theorem isJsonWs_false_of_toNat {c : Char}
    (h : c.toNat ≠ 32 ∧ c.toNat ≠ 9 ∧ c.toNat ≠ 10 ∧ c.toNat ≠ 13) :
    isJsonWs c = false := by
  have h32 : c ≠ ' ' := char_ne_of_toNat (by simpa using h.1)
  have h9 : c ≠ '\t' := char_ne_of_toNat (by simpa using h.2.1)
  have h10 : c ≠ '\n' := char_ne_of_toNat (by simpa using h.2.2.1)
  simp [isJsonWs, h32, h9, h10, h.2.2.2]

theorem skipWs_cons {c : Char} (h : isJsonWs c = false) (t : List Char) :
    skipWs (c :: t) = c :: t := by
  simp [skipWs, List.dropWhile_cons, h]

theorem sizeJ_pos (j : Json) : 1 ≤ sizeJ j := by
  cases j <;> simp [sizeJ]

theorem sizeL_pos {xs : List Json} (h : xs ≠ []) : 1 ≤ sizeL xs := by
  cases xs with
  | nil => contradiction
  | cons x t =>
    have := sizeJ_pos x
    simp [sizeL]
    omega

theorem sizeM_pos {kvs : List (Str × Json)} (h : kvs ≠ []) : 1 ≤ sizeM kvs := by
  cases kvs with
  | nil => contradiction
  | cons kv t =>
    obtain ⟨k, v⟩ := kv
    have := sizeJ_pos v
    simp [sizeM]
    omega

theorem serVal_goodStart (j : Json) :
    ∃ c t, serVal j = c :: t ∧ isJsonWs c = false ∧ c ≠ ']' ∧ c ≠ '\x7d' := by
  cases j with
  | null => exact ⟨'n', _, rfl, by decide⟩
  | bool b =>
    rcases b with _ | _
    · exact ⟨'f', _, rfl, by decide⟩
    · exact ⟨'t', _, rfl, by decide⟩
  | num n =>
    cases n with
    | ofNat m =>
      obtain ⟨d, ds, hbd⟩ : ∃ d ds, bigDigits m = d :: ds := by
        cases hb : bigDigits m with
        | nil => exact absurd hb (bigDigits_ne_nil m)
        | cons d ds => exact ⟨d, ds, rfl⟩
      have hd : d < 10 := bigDigits_lt m d (by simp [hbd])
      have hdc := digitChar_isDigit hd
      refine ⟨digitChar d, ds.map digitChar, ?_, ?_, ?_, ?_⟩
      · show serVal (.num (Int.ofNat m)) = _
        simp [serVal, intToChars, natToChars_eq, hbd]
      · exact isJsonWs_false_of_toNat (by omega)
      · exact char_ne_of_toNat (by rw [hdc.2, show (']' : Char).toNat = 93 from rfl]; omega)
      · exact char_ne_of_toNat (by rw [hdc.2, show ('\x7d' : Char).toNat = 125 from rfl]; omega)
    | negSucc m => exact ⟨'-', _, rfl, by decide⟩
  | str s => exact ⟨'"', _, rfl, by decide⟩
  | arr xs => exact ⟨'[', _, rfl, by decide⟩
  | obj kvs => exact ⟨'\x7b', _, rfl, by decide⟩

theorem serList_goodStart {xs : List Json} (h : xs ≠ []) :
    ∃ c t, serList xs = c :: t ∧ isJsonWs c = false ∧ c ≠ ']' ∧ c ≠ '\x7d' := by
  cases xs with
  | nil => contradiction
  | cons x xs' =>
    obtain ⟨c, t, hser, hws, h1, h2⟩ := serVal_goodStart x
    cases xs' with
    | nil => exact ⟨c, t, by simp [serList, hser], hws, h1, h2⟩
    | cons y zs =>
      exact ⟨c, t ++ ',' :: serList (y :: zs), by simp [serList, hser], hws, h1, h2⟩

theorem serMembers_head {kvs : List (Str × Json)} (h : kvs ≠ []) :
    ∃ t, serMembers kvs = '"' :: t := by
  cases kvs with
  | nil => contradiction
  | cons kv kvs' =>
    obtain ⟨k, v⟩ := kv
    cases kvs' with
    | nil => exact ⟨_, rfl⟩
    | cons m rest => exact ⟨_, rfl⟩



theorem parse_ser : ∀ fuel : Nat,
    (∀ (j : Json) (rest : List Char), sizeJ j ≤ fuel → numSafe rest →
      parseVal fuel (serVal j ++ rest) = some (j, rest)) ∧
    (∀ (xs : List Json) (rest : List Char), xs ≠ [] → sizeL xs ≤ fuel →
      parseElems fuel (serList xs ++ ']' :: rest) = some (xs, rest)) ∧
    (∀ (kvs : List (Str × Json)) (rest : List Char), kvs ≠ [] → sizeM kvs ≤ fuel →
      parseMembers fuel (serMembers kvs ++ '\x7d' :: rest) = some (kvs, rest)) := by
  intro fuel
  induction fuel with
  | zero =>
    refine ⟨?_, ?_, ?_⟩
    · intro j rest hf _
      exact absurd hf (by have := sizeJ_pos j; omega)
    · intro xs rest hne hf
      exact absurd hf (by have := sizeL_pos hne; omega)
    · intro kvs rest hne hf
      exact absurd hf (by have := sizeM_pos hne; omega)
  | succ f ih =>
    obtain ⟨ihV, ihE, ihM⟩ := ih
    refine ⟨?_, ?_, ?_⟩
    · intro j rest hfuel hrest
      cases j with
      | null =>
        rw [show serVal .null ++ rest = 'n' :: ('u' :: 'l' :: 'l' :: rest) from rfl]
        simp only [parseVal]
        rw [skipWs_cons (by decide), parseValCore.eq_def]
        simp [parseNullTail]
      | bool b =>
        cases b with
        | true =>
          rw [show serVal (.bool true) ++ rest = 't' :: ('r' :: 'u' :: 'e' :: rest) from rfl]
          simp only [parseVal]
          rw [skipWs_cons (by decide), parseValCore.eq_def]
          simp [parseTrueTail]
        | false =>
          rw [show serVal (.bool false) ++ rest =
            'f' :: ('a' :: 'l' :: 's' :: 'e' :: rest) from rfl]
          simp only [parseVal]
          rw [skipWs_cons (by decide), parseValCore.eq_def]
          simp [parseFalseTail]
      | num n =>
        cases n with
        | ofNat m =>
          obtain ⟨d, ds, hbd⟩ : ∃ d ds, bigDigits m = d :: ds := by
            cases hb : bigDigits m with
            | nil => exact absurd hb (bigDigits_ne_nil m)
            | cons d ds => exact ⟨d, ds, rfl⟩
          have hdlt : d < 10 := bigDigits_lt m d (by simp [hbd])
          have hds : ∀ x ∈ ds, x < 10 := fun x hx => bigDigits_lt m x (by simp [hbd, hx])
          have hdc := digitChar_isDigit hdlt
          have hser : serVal (.num (Int.ofNat m)) = digitChar d :: ds.map digitChar := by
            simp [serVal, intToChars, natToChars_eq, hbd]
          rw [hser]
          simp only [List.cons_append, parseVal]
          rw [skipWs_cons (isJsonWs_false_of_toNat (by omega))]
          rw [parseValCore.eq_def]
          simp only []
          rw [if_neg (char_ne_of_toNat (by rw [hdc.2]; exact (by omega : 48 + d ≠ 110))),
            if_neg (char_ne_of_toNat (by rw [hdc.2]; exact (by omega : 48 + d ≠ 116))),
            if_neg (char_ne_of_toNat (by rw [hdc.2]; exact (by omega : 48 + d ≠ 102))),
            if_neg (char_ne_of_toNat (by rw [hdc.2]; exact (by omega : 48 + d ≠ 34))),
            if_neg (char_ne_of_toNat (by rw [hdc.2]; exact (by omega : 48 + d ≠ 91))),
            if_neg (char_ne_of_toNat (by rw [hdc.2]; exact (by omega : 48 + d ≠ 123))),
            if_neg (char_ne_of_toNat (by rw [hdc.2]; exact (by omega : 48 + d ≠ 45))),
            if_pos hdc.1]
          rw [show (digitChar d).toNat - 48 = d by rw [hdc.2]; omega]
          rw [readDigitsAux_map ds hds d rest hrest]
          have hfold : ds.foldl (fun a x => 10 * a + x) d = m := by
            have h0 := bigDigits_foldl m
            rw [hbd] at h0
            simpa using h0
          simp [hfold]
        | negSucc m =>
          obtain ⟨d, ds, hbd⟩ : ∃ d ds, bigDigits (m + 1) = d :: ds := by
            cases hb : bigDigits (m + 1) with
            | nil => exact absurd hb (bigDigits_ne_nil (m + 1))
            | cons d ds => exact ⟨d, ds, rfl⟩
          have hdlt : d < 10 := bigDigits_lt (m + 1) d (by simp [hbd])
          have hds : ∀ x ∈ ds, x < 10 := fun x hx => bigDigits_lt (m + 1) x (by simp [hbd, hx])
          have hdc := digitChar_isDigit hdlt
          have hser : serVal (.num (Int.negSucc m)) =
              '-' :: digitChar d :: ds.map digitChar := by
            simp [serVal, intToChars, natToChars_eq, hbd]
          rw [hser]
          simp only [List.cons_append, parseVal]
          rw [skipWs_cons (by decide)]
          rw [parseValCore.eq_def]
          simp only []
          rw [if_neg (by decide), if_neg (by decide), if_neg (by decide), if_neg (by decide),
            if_neg (by decide), if_neg (by decide)]
          simp only [if_true]
          simp only [parseNegTail]
          rw [if_pos hdc.1]
          rw [show (digitChar d).toNat - 48 = d by rw [hdc.2]; omega]
          rw [readDigitsAux_map ds hds d rest hrest]
          have hfold : ds.foldl (fun a x => 10 * a + x) d = m + 1 := by
            have h0 := bigDigits_foldl (m + 1)
            rw [hbd] at h0
            simpa using h0
          simp only [hfold]
          rw [show Int.negSucc m = -((m + 1 : Nat) : Int) by
            rw [Int.negSucc_eq]
            simp]
      | str s =>
        have hser : serVal (.str s) ++ rest = '"' :: (escapeStr s ++ '"' :: rest) := by
          simp [serVal]
        rw [hser]
        simp only [parseVal]
        rw [skipWs_cons (by decide)]
        rw [parseValCore.eq_def]
        simp only []
        rw [if_neg (by decide), if_neg (by decide), if_neg (by decide)]
        simp only [if_true]
        simp only [parseStrTail]
        rw [readStrAux_escape]
        rfl
      | arr xs =>
        cases xs with
        | nil =>
          rw [show serVal (.arr []) ++ rest = '[' :: (']' :: rest) from rfl]
          simp only [parseVal]
          rw [skipWs_cons (by decide), parseValCore.eq_def]
          simp only []
          rw [if_neg (by decide), if_neg (by decide), if_neg (by decide), if_neg (by decide)]
          simp only [if_true]
          rw [skipWs_cons (show isJsonWs ']' = false from by decide)]
          simp [headIs]
        | cons x xs' =>
          have hser : serVal (.arr (x :: xs')) ++ rest =
              '[' :: (serList (x :: xs') ++ ']' :: rest) := by
            simp [serVal]
          rw [hser]
          simp only [parseVal]
          rw [skipWs_cons (by decide)]
          rw [parseValCore.eq_def]
          simp only []
          rw [if_neg (by decide), if_neg (by decide), if_neg (by decide), if_neg (by decide)]
          simp only [if_true]
          obtain ⟨c0, t0, hsl, hws, hnb, _⟩ := serList_goodStart (List.cons_ne_nil x xs')
          rw [show serList (x :: xs') ++ ']' :: rest = (c0 :: t0) ++ ']' :: rest by rw [hsl]]
          rw [show ((c0 :: t0) ++ ']' :: rest : List Char) = c0 :: (t0 ++ ']' :: rest) from rfl]
          rw [skipWs_cons hws]
          rw [show headIs ']' (c0 :: (t0 ++ ']' :: rest)) = false by simp [headIs, hnb]]
          simp only [Bool.false_eq_true, if_false]
          rw [show c0 :: (t0 ++ ']' :: rest) = serList (x :: xs') ++ ']' :: rest by
            rw [hsl]; simp]
          rw [ihE (x :: xs') rest (List.cons_ne_nil x xs') (by simp [sizeJ] at hfuel; omega)]
          rfl
      | obj kvs =>
        cases kvs with
        | nil =>
          rw [show serVal (.obj []) ++ rest = '\x7b' :: ('\x7d' :: rest) from rfl]
          simp only [parseVal]
          rw [skipWs_cons (by decide), parseValCore.eq_def]
          simp only []
          rw [if_neg (by decide), if_neg (by decide), if_neg (by decide), if_neg (by decide),
            if_neg (by decide)]
          simp only [if_true]
          rw [skipWs_cons (show isJsonWs '\x7d' = false from by decide)]
          simp [headIs]
        | cons kv kvs' =>
          have hser : serVal (.obj (kv :: kvs')) ++ rest =
              '\x7b' :: (serMembers (kv :: kvs') ++ '\x7d' :: rest) := by
            simp [serVal]
          rw [hser]
          simp only [parseVal]
          rw [skipWs_cons (by decide)]
          rw [parseValCore.eq_def]
          simp only []
          rw [if_neg (by decide), if_neg (by decide), if_neg (by decide), if_neg (by decide),
            if_neg (by decide)]
          simp only [if_true]
          obtain ⟨t0, hsm⟩ := serMembers_head (List.cons_ne_nil kv kvs')
          rw [show serMembers (kv :: kvs') ++ '\x7d' :: rest =
            '"' :: (t0 ++ '\x7d' :: rest) by rw [hsm]; simp]
          rw [skipWs_cons (show isJsonWs '"' = false from by decide)]
          rw [show headIs '\x7d' ('"' :: (t0 ++ '\x7d' :: rest)) = false from rfl]
          simp only [Bool.false_eq_true, if_false]
          rw [show ('"' :: (t0 ++ '\x7d' :: rest) : List Char) =
            serMembers (kv :: kvs') ++ '\x7d' :: rest by rw [hsm]; simp]
          rw [ihM (kv :: kvs') rest (List.cons_ne_nil kv kvs') (by simp [sizeJ] at hfuel; omega)]
          rfl
    · intro xs rest hne hfuel
      cases xs with
      | nil => contradiction
      | cons x xs' =>
        have hszx : sizeJ x ≤ f := by
          simp [sizeL] at hfuel
          omega
        rw [parseElems.eq_def]
        simp only []
        cases xs' with
        | nil =>
          rw [show serList [x] ++ ']' :: rest = serVal x ++ ']' :: rest by simp [serList]]
          rw [ihV x (']' :: rest) hszx (by show (']' : Char).isDigit = false; decide)]
          simp only []
          rw [skipWs_cons (show isJsonWs ']' = false from by decide)]
          simp only []
          rw [if_neg (show ¬(']' : Char) = ',' from by decide)]
          simp
        | cons y zs =>
          have hsz2 : sizeL (y :: zs) ≤ f := by
            simp [sizeL] at hfuel ⊢
            omega
          rw [show serList (x :: y :: zs) ++ ']' :: rest =
            serVal x ++ (',' :: (serList (y :: zs) ++ ']' :: rest)) by simp [serList]]
          rw [ihV x _ hszx (by show (',' : Char).isDigit = false; decide)]
          simp only []
          rw [skipWs_cons (show isJsonWs ',' = false from by decide)]
          simp only []
          simp only [if_true]
          rw [ihE (y :: zs) rest (List.cons_ne_nil y zs) hsz2]
    · intro kvs rest hne hfuel
      cases kvs with
      | nil => contradiction
      | cons kv kvs' =>
        obtain ⟨k, v⟩ := kv
        have hszv : sizeJ v ≤ f := by
          simp [sizeM] at hfuel
          omega
        rw [parseMembers.eq_def]
        simp only []
        cases kvs' with
        | nil =>
          rw [show serMembers [(k, v)] ++ '\x7d' :: rest =
            '"' :: (escapeStr k ++ '"' :: (':' :: (serVal v ++ '\x7d' :: rest))) by
              simp [serMembers]]
          rw [skipWs_cons (show isJsonWs '"' = false from by decide)]
          simp only []
          rw [readStrAux_escape]
          simp only []
          rw [skipWs_cons (show isJsonWs ':' = false from by decide)]
          simp only []
          rw [ihV v _ hszv (by show ('\x7d' : Char).isDigit = false; decide)]
          simp only []
          rw [skipWs_cons (show isJsonWs '\x7d' = false from by decide)]
          simp only []
          rw [if_neg (show ¬('\x7d' : Char) = ',' from by decide)]
          simp
        | cons m2 rest2 =>
          have hsz2 : sizeM (m2 :: rest2) ≤ f := by
            simp [sizeM] at hfuel ⊢
            omega
          rw [show serMembers ((k, v) :: m2 :: rest2) ++ '\x7d' :: rest =
            '"' :: (escapeStr k ++ '"' :: (':' :: (serVal v ++
              ',' :: (serMembers (m2 :: rest2) ++ '\x7d' :: rest)))) by
              simp [serMembers]]
          rw [skipWs_cons (show isJsonWs '"' = false from by decide)]
          simp only []
          rw [readStrAux_escape]
          simp only []
          rw [skipWs_cons (show isJsonWs ':' = false from by decide)]
          simp only []
          rw [ihV v _ hszv (by show (',' : Char).isDigit = false; decide)]
          simp only []
          rw [skipWs_cons (show isJsonWs ',' = false from by decide)]
          simp only []
          simp only [if_true]
          rw [ihM (m2 :: rest2) rest (List.cons_ne_nil m2 rest2) hsz2]

theorem serVal_length_pos (j : Json) : 1 ≤ (serVal j).length := by
  obtain ⟨c, t, h, -⟩ := serVal_goodStart j
  simp [h]

theorem ser_length_bound : ∀ n : Nat,
    (∀ j : Json, sizeOf j ≤ n → sizeJ j ≤ 2 * (serVal j).length) ∧
    (∀ xs : List Json, sizeOf xs ≤ n → sizeL xs ≤ 2 * (serList xs).length + 1) ∧
    (∀ kvs : List (Str × Json), sizeOf kvs ≤ n →
      sizeM kvs ≤ 2 * (serMembers kvs).length + 1) := by
  intro n
  induction n with
  | zero =>
    refine ⟨?_, ?_, ?_⟩
    · intro j hj
      cases j <;> simp_all
    · intro xs hxs
      cases xs <;> simp_all
    · intro kvs hkvs
      cases kvs <;> simp_all
  | succ n ih =>
    obtain ⟨ihJ, ihL, ihM⟩ := ih
    refine ⟨?_, ?_, ?_⟩
    · intro j hj
      cases j with
      | null => simp [sizeJ, serVal]
      | bool b => cases b <;> simp [sizeJ, serVal]
      | num m =>
        have := serVal_length_pos (.num m)
        simp [sizeJ]
        omega
      | str s =>
        have := serVal_length_pos (.str s)
        simp [sizeJ]
        omega
      | arr xs =>
        have hxs : sizeOf xs ≤ n := by
          have := Json.arr.sizeOf_spec xs
          omega
        have := ihL xs hxs
        simp [sizeJ, serVal]
        omega
      | obj kvs =>
        have hkvs : sizeOf kvs ≤ n := by
          have := Json.obj.sizeOf_spec kvs
          omega
        have := ihM kvs hkvs
        simp [sizeJ, serVal]
        omega
    · intro xs hxs
      cases xs with
      | nil => simp [sizeL, serList]
      | cons x xs' =>
        have hx : sizeOf x ≤ n := by
          have := List.cons.sizeOf_spec x xs'
          omega
        have hxs' : sizeOf xs' ≤ n := by
          have := List.cons.sizeOf_spec x xs'
          omega
        have h1 := ihJ x hx
        cases xs' with
        | nil =>
          simp [sizeL, serList]
          omega
        | cons y zs =>
          have h2 := ihL (y :: zs) hxs'
          simp [sizeL, serList] at h2 ⊢
          omega
    · intro kvs hkvs
      cases kvs with
      | nil => simp [sizeM, serMembers]
      | cons kv kvs' =>
        obtain ⟨k, v⟩ := kv
        have hv : sizeOf v ≤ n := by
          have h1 := List.cons.sizeOf_spec (k, v) kvs'
          have h2 : sizeOf ((k, v) : Str × Json) = 1 + sizeOf k + sizeOf v := rfl
          omega
        have hkvs' : sizeOf kvs' ≤ n := by
          have := List.cons.sizeOf_spec (k, v) kvs'
          omega
        have h1 := ihJ v hv
        cases kvs' with
        | nil =>
          simp [sizeM, serMembers]
          omega
        | cons m2 rest2 =>
          have h2 := ihM (m2 :: rest2) hkvs'
          simp [sizeM, serMembers] at h2 ⊢
          omega

theorem jsonLoads_dumps (j : Json) : jsonLoads (jsonDumps j) = some j := by
  unfold jsonLoads jsonDumps
  have hb := (ser_length_bound (sizeOf j)).1 j (le_refl _)
  have hp := (parse_ser (2 * (serVal j).length + 2)).1 j [] (by omega) trivial
  rw [List.append_nil] at hp
  rw [hp]
  simp [skipWs]


theorem hexChar_toNat {d : Nat} (h : d < 16) :
    48 ≤ (hexChar d).toNat ∧ (hexChar d).toNat < 128 :=
  (by decide : ∀ d < 16, 48 ≤ (hexChar d).toNat ∧ (hexChar d).toNat < 128) d h

theorem hex4_ascii (n : Nat) : allAscii (hex4 n) := by
  intro c hc
  simp [hex4] at hc
  rcases hc with h | h | h | h <;>
    (subst h; exact (hexChar_toNat (Nat.mod_lt _ (by norm_num))).2)

theorem escapeChar_ascii (c : Char) : allAscii (escapeChar c) := by
  unfold escapeChar
  split
  · decide
  split
  · decide
  split
  · decide
  split
  · decide
  split
  · decide
  split
  · decide
  split
  · decide
  split
  · split
    · intro x hx
      simp at hx
      rcases hx with rfl | rfl | h
      · decide
      · decide
      · exact hex4_ascii _ x h
    · intro x hx
      simp at hx
      rcases hx with rfl | rfl | h | rfl | rfl | h
      · decide
      · decide
      · exact hex4_ascii _ x h
      · decide
      · decide
      · exact hex4_ascii _ x h
  · intro x hx
    simp at hx
    subst hx
    rename_i h8
    push_neg at h8
    omega

theorem escapeStr_ascii (s : Str) : allAscii (escapeStr s) := by
  intro x hx
  simp [escapeStr] at hx
  obtain ⟨c, -, hc⟩ := hx
  exact escapeChar_ascii c x hc

theorem natToChars_ascii (n : Nat) : allAscii (natToChars n) := by
  intro x hx
  rw [natToChars_eq] at hx
  simp at hx
  obtain ⟨d, hd, rfl⟩ := hx
  have h1 := digitChar_isDigit (bigDigits_lt n d hd)
  have h2 := bigDigits_lt n d hd
  omega

theorem serVal_ascii : ∀ n : Nat,
    (∀ j : Json, sizeOf j ≤ n → allAscii (serVal j)) ∧
    (∀ xs : List Json, sizeOf xs ≤ n → allAscii (serList xs)) ∧
    (∀ kvs : List (Str × Json), sizeOf kvs ≤ n → allAscii (serMembers kvs)) := by
  intro n
  induction n with
  | zero =>
    refine ⟨?_, ?_, ?_⟩
    · intro j hj
      cases j <;> simp_all
    · intro xs hxs
      cases xs <;> simp_all [allAscii]
    · intro kvs hkvs
      cases kvs <;> simp_all [allAscii]
  | succ n ih =>
    obtain ⟨ihJ, ihL, ihK⟩ := ih
    refine ⟨?_, ?_, ?_⟩
    · intro j hj
      cases j with
      | null => decide
      | bool b => cases b <;> decide
      | num m =>
        intro c hc
        cases m with
        | ofNat k =>
          exact natToChars_ascii k c hc
        | negSucc k =>
          simp [serVal, intToChars] at hc
          rcases hc with rfl | h
          · decide
          · exact natToChars_ascii _ c h
      | str s =>
        intro c hc
        simp [serVal] at hc
        rcases hc with rfl | h | rfl
        · decide
        · exact escapeStr_ascii s c h
        · decide
      | arr xs =>
        have hxs : sizeOf xs ≤ n := by
          have := Json.arr.sizeOf_spec xs
          omega
        intro c hc
        simp [serVal] at hc
        rcases hc with rfl | h | rfl
        · decide
        · exact ihL xs hxs c h
        · decide
      | obj kvs =>
        have hkvs : sizeOf kvs ≤ n := by
          have := Json.obj.sizeOf_spec kvs
          omega
        intro c hc
        simp [serVal] at hc
        rcases hc with rfl | h | rfl
        · decide
        · exact ihK kvs hkvs c h
        · decide
    · intro xs hxs
      cases xs with
      | nil => intro c hc; simp [serList] at hc
      | cons x xs' =>
        have hx : sizeOf x ≤ n := by
          have := List.cons.sizeOf_spec x xs'
          omega
        have hxs' : sizeOf xs' ≤ n := by
          have := List.cons.sizeOf_spec x xs'
          omega
        intro c hc
        cases xs' with
        | nil =>
          simp [serList] at hc
          exact ihJ x hx c hc
        | cons y zs =>
          simp [serList] at hc
          rcases hc with h | rfl | h
          · exact ihJ x hx c h
          · decide
          · exact ihL (y :: zs) hxs' c h
    · intro kvs hkvs
      cases kvs with
      | nil => intro c hc; simp [serMembers] at hc
      | cons kv kvs' =>
        obtain ⟨k, v⟩ := kv
        have hv : sizeOf v ≤ n := by
          have h1 := List.cons.sizeOf_spec (k, v) kvs'
          have h2 : sizeOf ((k, v) : Str × Json) = 1 + sizeOf k + sizeOf v := rfl
          omega
        have hkvs' : sizeOf kvs' ≤ n := by
          have := List.cons.sizeOf_spec (k, v) kvs'
          omega
        intro c hc
        cases kvs' with
        | nil =>
          simp [serMembers] at hc
          rcases hc with rfl | h | rfl | rfl | h
          · decide
          · exact escapeStr_ascii k c h
          · decide
          · decide
          · exact ihJ v hv c h
        | cons m2 rest2 =>
          simp [serMembers] at hc
          rcases hc with rfl | h | rfl | rfl | h | rfl | h
          · decide
          · exact escapeStr_ascii k c h
          · decide
          · decide
          · exact ihJ v hv c h
          · decide
          · exact ihK (m2 :: rest2) hkvs' c h

theorem jsonDumps_ascii (j : Json) : allAscii (jsonDumps j) :=
  (serVal_ascii (sizeOf j)).1 j (le_refl _)

theorem utf8Bytes_ascii {c : Char} (h : c.toNat < 128) : utf8Bytes c = [c.toNat] := by
  unfold utf8Bytes
  rw [if_pos h]

theorem fromHexChar_hexCharUpper {d : Nat} (h : d < 16) :
    fromHexChar (hexCharUpper d) = some d :=
  (by decide : ∀ d < 16, fromHexChar (hexCharUpper d) = some d) d h

theorem hexCharUpper_ne_pct {d : Nat} (h : d < 16) : hexCharUpper d ≠ '%' :=
  (by decide : ∀ d < 16, hexCharUpper d ≠ '%') d h

theorem urlQuote_cons_ascii {c : Char} (h : c.toNat < 128) (s : Str) :
    urlQuote (c :: s) = quoteByte c.toNat ++ urlQuote s := by
  simp [urlQuote, utf8Bytes_ascii h]

theorem unquoteBytes_quote_ascii :
    ∀ (s : Str), allAscii s → unquoteBytes (urlQuote s) = s.map Char.toNat := by
  intro s
  induction s with
  | nil =>
    intro _
    rfl
  | cons c s ih =>
    intro hascii
    have hc : c.toNat < 128 := hascii c (by simp)
    have hs : allAscii s := fun x hx => hascii x (by simp [hx])
    rw [urlQuote_cons_ascii hc]
    unfold quoteByte
    by_cases hsafe : isUrlSafe c.toNat = true
    · rw [if_pos hsafe]
      have hne : Char.ofNat c.toNat ≠ '%' := by
        rw [Char.ofNat_toNat]
        intro he
        rw [he] at hsafe
        exact absurd hsafe (by decide)
      rw [show ([Char.ofNat c.toNat] : List Char) ++ urlQuote s =
        Char.ofNat c.toNat :: urlQuote s from rfl]
      rw [unquoteBytes.eq_def]
      simp only []
      rw [if_neg hne, utf8Bytes_ascii (by rw [Char.ofNat_toNat]; exact hc)]
      rw [Char.ofNat_toNat]
      simp [ih hs]
    · rw [if_neg hsafe]
      have h1 : c.toNat / 16 % 16 < 16 := Nat.mod_lt _ (by norm_num)
      have h2 : c.toNat % 16 < 16 := Nat.mod_lt _ (by norm_num)
      rw [show (['%', hexCharUpper (c.toNat / 16 % 16), hexCharUpper (c.toNat % 16)] : List Char)
        ++ urlQuote s = '%' :: hexCharUpper (c.toNat / 16 % 16) ::
          hexCharUpper (c.toNat % 16) :: urlQuote s from rfl]
      rw [unquoteBytes.eq_def]
      simp only []
      simp only [if_true]
      rw [fromHexChar_hexCharUpper h1, fromHexChar_hexCharUpper h2]
      simp only []
      rw [show 16 * (c.toNat / 16 % 16) + c.toNat % 16 = c.toNat by omega]
      simp [ih hs]

theorem utf8Decode_ascii :
    ∀ (s : Str), allAscii s → utf8Decode (s.map Char.toNat) = s := by
  intro s
  induction s with
  | nil =>
    intro _
    rw [List.map_nil, utf8Decode.eq_def]
  | cons c s ih =>
    intro hascii
    have hc : c.toNat < 128 := hascii c (by simp)
    have hs : allAscii s := fun x hx => hascii x (by simp [hx])
    rw [List.map_cons, utf8Decode.eq_def]
    simp only []
    rw [if_pos hc, Char.ofNat_toNat, ih hs]

theorem urlUnquote_urlQuote {s : Str} (h : allAscii s) : urlUnquote (urlQuote s) = s := by
  unfold urlUnquote
  rw [unquoteBytes_quote_ascii s h, utf8Decode_ascii s h]

theorem quoteByte_chars (b : Nat) : ∀ c ∈ quoteByte b, c ≠ '&' ∧ c ≠ '=' ∧ c ≠ '\n' := by
  intro c hc
  unfold quoteByte at hc
  by_cases hsafe : isUrlSafe b = true
  · rw [if_pos hsafe] at hc
    simp at hc
    subst hc
    have hlt : b < 128 := by
      unfold isUrlSafe at hsafe
      simp at hsafe
      omega
    have htn : (Char.ofNat b).toNat = b := toNat_ofNat_valid (by omega) (by omega)
    have hne : ∀ (ch : Char), isUrlSafe ch.toNat = false → Char.ofNat b ≠ ch := by
      intro ch hchf he
      have hb : b = ch.toNat := by rw [← htn, he]
      rw [hb, hchf] at hsafe
      exact absurd hsafe (by simp)
    exact ⟨hne '&' (by decide), hne '=' (by decide), hne '\n' (by decide)⟩
  · rw [if_neg hsafe] at hc
    simp at hc
    rcases hc with rfl | rfl | rfl
    · exact ⟨by decide, by decide, by decide⟩
    · exact (by decide : ∀ d < 16, hexCharUpper d ≠ '&' ∧ hexCharUpper d ≠ '=' ∧
        hexCharUpper d ≠ '\n') _ (Nat.mod_lt _ (by norm_num))
    · exact (by decide : ∀ d < 16, hexCharUpper d ≠ '&' ∧ hexCharUpper d ≠ '=' ∧
        hexCharUpper d ≠ '\n') _ (Nat.mod_lt _ (by norm_num))

theorem urlQuote_chars (s : Str) :
    ∀ c ∈ urlQuote s, c ≠ '&' ∧ c ≠ '=' ∧ c ≠ '\n' := by
  intro c hc
  unfold urlQuote at hc
  simp only [List.mem_flatten, List.mem_map] at hc
  obtain ⟨l, ⟨b, hb, rfl⟩, hcl⟩ := hc
  exact quoteByte_chars b c hcl

theorem splitAmp_no_amp {p : Str} (h : ∀ c ∈ p, c ≠ '&') : splitAmp p = [p] := by
  induction p with
  | nil => rfl
  | cons c t ih =>
    simp only [splitAmp]
    rw [if_neg (h c (by simp)), ih (fun x hx => h x (by simp [hx]))]

theorem splitAmp_append {p : Str} (rest : Str) (h : ∀ c ∈ p, c ≠ '&') :
    splitAmp (p ++ '&' :: rest) = p :: splitAmp rest := by
  induction p with
  | nil =>
    simp [splitAmp]
  | cons c t ih =>
    simp only [List.cons_append, splitAmp, List.append_eq]
    rw [if_neg (h c (by simp)), ih (fun x hx => h x (by simp [hx]))]

theorem isPrefixOf_append_self (l t : List Char) : l.isPrefixOf (l ++ t) = true := by
  induction l with
  | nil => simp [List.isPrefixOf]
  | cons c r ih => simp [List.isPrefixOf, ih]

theorem fReq_chars (s : Str) : ∀ c ∈ String.data "f.req=" ++ urlQuote s, c ≠ '&' := by
  intro c hc
  rw [show String.data "f.req=" = ['f', '.', 'r', 'e', 'q', '='] from rfl] at hc
  simp at hc
  rcases hc with rfl | rfl | rfl | rfl | rfl | rfl | hq
  · decide
  · decide
  · decide
  · decide
  · decide
  · decide
  · exact (urlQuote_chars s c hq).1

theorem at_chars (s : Str) : ∀ c ∈ String.data "at=" ++ urlQuote s, c ≠ '&' := by
  intro c hc
  rw [show String.data "at=" = ['a', 't', '='] from rfl] at hc
  simp at hc
  rcases hc with rfl | rfl | rfl | hq
  · decide
  · decide
  · decide
  · exact (urlQuote_chars s c hq).1

theorem joinAmp_pair (a b : Str) : joinAmp [a, b] = a ++ '&' :: b := rfl

theorem joinAmp_single (a : Str) : joinAmp [a] = a := rfl

theorem build_request_body_split (rpc_id : Str) (params : Json) (tok : Str) (h : tok ≠ []) :
    splitAmp (build_request_body rpc_id params tok) =
      [String.data "f.req=" ++ urlQuote (jsonDumps (.arr [.arr [.arr [.str rpc_id,
        .str (jsonDumps params), .null, .str (String.data "generic")]]])),
       String.data "at=" ++ urlQuote tok, []] := by
  unfold build_request_body
  rw [if_pos h]
  show splitAmp (joinAmp [String.data "f.req=" ++ urlQuote (jsonDumps (.arr [.arr [.arr
    [.str rpc_id, .str (jsonDumps params), .null, .str (String.data "generic")]]])),
    String.data "at=" ++ urlQuote tok] ++ ['&']) = _
  rw [joinAmp_pair, List.append_assoc]
  rw [show ('&' :: (String.data "at=" ++ urlQuote tok)) ++ ['&'] =
    '&' :: ((String.data "at=" ++ urlQuote tok) ++ '&' :: []) by simp]
  rw [splitAmp_append _ (fReq_chars _), splitAmp_append _ (at_chars _)]
  rfl

theorem build_request_body_split_empty (rpc_id : Str) (params : Json) :
    splitAmp (build_request_body rpc_id params []) =
      [String.data "f.req=" ++ urlQuote (jsonDumps (.arr [.arr [.arr [.str rpc_id,
        .str (jsonDumps params), .null, .str (String.data "generic")]]])), []] := by
  unfold build_request_body
  rw [if_neg (by simp)]
  show splitAmp (joinAmp [String.data "f.req=" ++ urlQuote (jsonDumps (.arr [.arr [.arr
    [.str rpc_id, .str (jsonDumps params), .null, .str (String.data "generic")]]]))]
    ++ ['&']) = _
  rw [joinAmp_single]
  rw [show (['&'] : Str) = '&' :: [] from rfl]
  rw [splitAmp_append _ (fReq_chars _)]
  rfl

/-- C3: for every method id, parameter value and non-empty token,
percent-decoding and then JSON-decoding the `f.req` field of
`build_request_body` yields exactly the triple-nested envelope
`[[[rpc_id, s, null, "generic"]]]` where `s` is a string whose
JSON-decoding equals the original parameter value. -/
theorem claim_C3 (rpc_id : Str) (params : Json) (csrf_token : Str) (h : csrf_token ≠ []) :
    ∃ fr, fReqOf (build_request_body rpc_id params csrf_token) = some fr ∧
      jsonLoads (urlUnquote fr) = some (.arr [.arr [.arr [.str rpc_id,
        .str (jsonDumps params), .null, .str (String.data "generic")]]]) ∧
      jsonLoads (jsonDumps params) = some params := by
  refine ⟨urlQuote (jsonDumps (.arr [.arr [.arr [.str rpc_id, .str (jsonDumps params),
    .null, .str (String.data "generic")]]])), ?_, ?_, jsonLoads_dumps params⟩
  · unfold fReqOf
    rw [build_request_body_split _ _ _ h]
    rw [List.findSome?_cons]
    rw [isPrefixOf_append_self]
    simp only [if_true]
    rw [show (6 : Nat) = (String.data "f.req=").length from rfl, List.drop_left]
  · rw [urlUnquote_urlQuote (jsonDumps_ascii _), jsonLoads_dumps]

theorem claim_C3_witness :
    ∃ fr, fReqOf (build_request_body (String.data "ab") (.arr [.null, .num 1])
        (String.data "tok")) = some fr ∧
      jsonLoads (urlUnquote fr) = some (.arr [.arr [.arr [.str (String.data "ab"),
        .str (jsonDumps (.arr [.null, .num 1])), .null, .str (String.data "generic")]]]) ∧
      jsonLoads (jsonDumps (.arr [.null, .num 1])) = some (.arr [.null, .num 1]) :=
  claim_C3 (String.data "ab") (.arr [.null, .num 1]) (String.data "tok") (by decide)

theorem isPrefixOf_cons_false {a b : Char} (h : (a == b) = false) (as bs : List Char) :
    List.isPrefixOf (a :: as) (b :: bs) = false := by
  simp [List.isPrefixOf, h]

/-- C9: the POST body contains exactly one `f.req=` field, an `at=` field
exactly when the token is non-empty, and ends with the trailing `&`. -/
theorem claim_C9 (rpc_id : Str) (params : Json) (csrf_token : Str) :
    countFieldsWith (String.data "f.req=") (build_request_body rpc_id params csrf_token) = 1 ∧
    countFieldsWith (String.data "at=") (build_request_body rpc_id params csrf_token) =
      (if csrf_token = [] then 0 else 1) ∧
    (build_request_body rpc_id params csrf_token).getLast? = some '&' := by
  have hlast : (build_request_body rpc_id params csrf_token).getLast? = some '&' := by
    unfold build_request_body
    split
    · exact List.getLast?_concat _
    · exact List.getLast?_concat _
  by_cases he : csrf_token = []
  · subst he
    refine ⟨?_, ?_, hlast⟩
    · unfold countFieldsWith
      rw [build_request_body_split_empty]
      rw [show (List.filter (fun part => (String.data "f.req=").isPrefixOf part)
        [String.data "f.req=" ++ urlQuote (jsonDumps (.arr [.arr [.arr [.str rpc_id,
          .str (jsonDumps params), .null, .str (String.data "generic")]]])), []]) =
        [String.data "f.req=" ++ urlQuote (jsonDumps (.arr [.arr [.arr [.str rpc_id,
          .str (jsonDumps params), .null, .str (String.data "generic")]]]))] by
        simp [List.filter, isPrefixOf_append_self]]
      rfl
    · unfold countFieldsWith
      rw [build_request_body_split_empty]
      rw [show (List.filter (fun part => (String.data "at=").isPrefixOf part)
        [String.data "f.req=" ++ urlQuote (jsonDumps (.arr [.arr [.arr [.str rpc_id,
          .str (jsonDumps params), .null, .str (String.data "generic")]]])), []]) =
        [] by
        simp [List.filter, List.isPrefixOf,
          isPrefixOf_cons_false (show (('a' : Char) == 'f') = false from by decide)]]
      rfl
  · refine ⟨?_, ?_, hlast⟩
    · unfold countFieldsWith
      rw [build_request_body_split _ _ _ he]
      rw [show (List.filter (fun part => (String.data "f.req=").isPrefixOf part)
        [String.data "f.req=" ++ urlQuote (jsonDumps (.arr [.arr [.arr [.str rpc_id,
          .str (jsonDumps params), .null, .str (String.data "generic")]]])),
         String.data "at=" ++ urlQuote csrf_token, []]) =
        [String.data "f.req=" ++ urlQuote (jsonDumps (.arr [.arr [.arr [.str rpc_id,
          .str (jsonDumps params), .null, .str (String.data "generic")]]]))] by
        simp [List.filter, List.isPrefixOf, isPrefixOf_append_self,
          isPrefixOf_cons_false (show (('f' : Char) == 'a') = false from by decide)]]
      rfl
    · unfold countFieldsWith
      rw [build_request_body_split _ _ _ he]
      rw [if_neg he]
      rw [show (List.filter (fun part => (String.data "at=").isPrefixOf part)
        [String.data "f.req=" ++ urlQuote (jsonDumps (.arr [.arr [.arr [.str rpc_id,
          .str (jsonDumps params), .null, .str (String.data "generic")]]])),
         String.data "at=" ++ urlQuote csrf_token, []]) =
        [String.data "at=" ++ urlQuote csrf_token] by
        simp [List.filter, List.isPrefixOf, isPrefixOf_append_self,
          isPrefixOf_cons_false (show (('a' : Char) == 'f') = false from by decide)]]
      rfl

theorem isPySpace_digitChar {d : Nat} (h : d < 10) : isPySpace (digitChar d) = false :=
  (by decide : ∀ d < 10, isPySpace (digitChar d) = false) d h

theorem dropWhile_isPySpace_eq_self {l : Str} (h : ∀ c ∈ l, isPySpace c = false) :
    l.dropWhile isPySpace = l := by
  cases l with
  | nil => rfl
  | cons c rest =>
    rw [List.dropWhile_cons, if_neg]
    simp [h c (List.mem_cons_self c rest)]

theorem pyStrip_of_no_space {l : Str} (h : ∀ c ∈ l, isPySpace c = false) : pyStrip l = l := by
  unfold pyStrip
  rw [dropWhile_isPySpace_eq_self h,
    dropWhile_isPySpace_eq_self (fun c hc => h c (List.mem_reverse.mp hc)),
    List.reverse_reverse]

theorem natToChars_ne_nil (n : Nat) : natToChars n ≠ [] := by
  rw [natToChars_eq]
  cases hbd : bigDigits n with
  | nil => exact absurd hbd (bigDigits_ne_nil n)
  | cons d ds => simp

theorem pyStrip_natToChars (n : Nat) : pyStrip (natToChars n) = natToChars n := by
  refine pyStrip_of_no_space ?_
  rw [natToChars_eq]
  intro c hc
  rcases List.mem_map.mp hc with ⟨d, hd, rfl⟩
  exact isPySpace_digitChar (bigDigits_lt n d hd)

theorem isIntChars_natToChars (n : Nat) : isIntChars (natToChars n) = true := by
  rw [natToChars_eq]
  cases hbd : bigDigits n with
  | nil => exact absurd hbd (bigDigits_ne_nil n)
  | cons d ds =>
    have hd : d < 10 := bigDigits_lt n d (by rw [hbd]; exact List.mem_cons_self d ds)
    have hds : ∀ e ∈ ds, e < 10 := fun e he =>
      bigDigits_lt n e (by rw [hbd]; exact List.mem_cons_of_mem d he)
    have hdc := digitChar_isDigit hd
    simp only [List.map_cons]
    simp only [isIntChars]
    rw [if_neg (char_ne_of_toNat (by rw [hdc.2, show ('+' : Char).toNat = 43 from rfl]; omega)),
      if_neg (char_ne_of_toNat (by rw [hdc.2, show ('-' : Char).toNat = 45 from rfl]; omega))]
    rw [List.all_eq_true]
    intro c hc
    rcases List.mem_cons.mp hc with rfl | hc2
    · exact hdc.1
    · rcases List.mem_map.mp hc2 with ⟨e, he, rfl⟩
      exact (digitChar_isDigit (hds e he)).1

theorem natToChars_lt_ten {n : Nat} (h : n < 10) : natToChars n = [digitChar n] := by
  unfold natToChars
  by_cases h0 : n = 0
  · subst h0
    simp
    decide
  · rw [if_neg h0, Nat.digits_def' (by norm_num : (1:ℕ) < 10) (Nat.pos_of_ne_zero h0)]
    rw [Nat.mod_eq_of_lt h, Nat.div_eq_of_lt h, Nat.digits_zero]
    rfl

theorem processLines_marker (n : Nat) (payload : Str) (rest : List Str) :
    processLines (natToChars n :: payload :: rest) =
      (jsonLoads payload).toList ++ processLines rest := by
  simp only [processLines, pyStrip_natToChars n, isIntChars_natToChars n, if_true]
  rw [if_neg (natToChars_ne_nil n)]
  cases hj : jsonLoads payload with
  | none => simp [hj]
  | some j => simp [hj]

theorem processLines_direct (line : Str) (rest : List Str) (hstrip : pyStrip line = line)
    (hne : line ≠ []) (hint : isIntChars line = false) :
    processLines (line :: rest) = (jsonLoads line).toList ++ processLines rest := by
  rw [processLines.eq_def]
  simp only [hstrip, hint]
  rw [if_neg hne]
  simp only [Bool.false_eq_true, if_false]
  cases hj : jsonLoads line with
  | none => simp [hj]
  | some j => simp [hj]

/-- C7: `parse_response` decodes the batch wire framing: the bare anti-XSSI
prefix yields no frames, `5\n[1,2]` yields the single frame `[1,2]`,
`3\n[1]\n3\n[2]` yields the frames `[1]` and `[2]`; in general a digit-only
line is consumed as an unvalidated byte-count marker with the following line
decoded as JSON, any other nonempty line is decoded directly as JSON, and a
line whose JSON fails to parse is skipped rather than aborting the decode. -/
theorem claim_C7 :
    parse_response (String.data ")]\x7d\x27\n") = [] ∧
    parse_response (String.data ")]\x7d\x27\n5\n[1,2]\n") = [.arr [.num 1, .num 2]] ∧
    parse_response (String.data ")]\x7d\x27\n3\n[1]\n3\n[2]\n") =
      [.arr [.num 1], .arr [.num 2]] ∧
    (∀ (n : Nat) (payload : Str) (rest : List Str),
      processLines (natToChars n :: payload :: rest) =
        (jsonLoads payload).toList ++ processLines rest) ∧
    (∀ (line : Str) (rest : List Str), pyStrip line = line → line ≠ [] →
      isIntChars line = false →
      processLines (line :: rest) = (jsonLoads line).toList ++ processLines rest) := by
  refine ⟨rfl, ?_, ?_, processLines_marker, processLines_direct⟩
  · show processLines [['5'], String.data "[1,2]"] = _
    rw [show (['5'] : Str) = natToChars 5 from by rw [natToChars_lt_ten (by norm_num)]; decide]
    rw [processLines_marker]
    rw [show String.data "[1,2]" = jsonDumps (.arr [.num 1, .num 2]) from by
      simp only [jsonDumps, serVal, serList, intToChars,
        natToChars_lt_ten (by norm_num : (1:ℕ) < 10),
        natToChars_lt_ten (by norm_num : (2:ℕ) < 10)]
      decide]
    rw [jsonLoads_dumps]
    rfl
  · show processLines [['3'], String.data "[1]", ['3'], String.data "[2]"] = _
    rw [show (['3'] : Str) = natToChars 3 from by rw [natToChars_lt_ten (by norm_num)]; decide]
    rw [processLines_marker, processLines_marker]
    rw [show String.data "[1]" = jsonDumps (.arr [.num 1]) from by
      simp only [jsonDumps, serVal, serList, intToChars,
        natToChars_lt_ten (by norm_num : (1:ℕ) < 10)]
      decide]
    rw [show String.data "[2]" = jsonDumps (.arr [.num 2]) from by
      simp only [jsonDumps, serVal, serList, intToChars,
        natToChars_lt_ten (by norm_num : (2:ℕ) < 10)]
      decide]
    rw [jsonLoads_dumps, jsonLoads_dumps]
    rfl

theorem claim_C7_witness :
    processLines [natToChars 7, String.data "true"] =
      (jsonLoads (String.data "true")).toList ++ processLines [] ∧
    processLines [String.data "[5]"] =
      (jsonLoads (String.data "[5]")).toList ++ processLines [] :=
  ⟨claim_C7.2.2.2.1 7 (String.data "true") [],
   claim_C7.2.2.2.2 (String.data "[5]") [] (by decide) (by decide) (by decide)⟩

theorem pqrLoop_nil (la lt : Str) : pqrLoop [] la lt = if la ≠ [] then la else lt := rfl

theorem payloadsOf_nil : payloadsOf [] = [] := rfl

theorem pqrLoop_blank (l : Str) (rest : List Str) (la lt : Str) (h : pyStrip l = []) :
    pqrLoop (l :: rest) la lt = pqrLoop rest la lt := by
  rw [pqrLoop.eq_def]
  simp only [h]
  rfl

theorem payloadsOf_blank (l : Str) (rest : List Str) (h : pyStrip l = []) :
    payloadsOf (l :: rest) = payloadsOf rest := by
  rw [payloadsOf.eq_def]
  simp only [h]
  rfl

theorem pqrLoop_int_nil (l : Str) (la lt : Str)
    (hl : pyStrip l ≠ []) (hi : isIntChars (pyStrip l) = true) :
    pqrLoop [l] la lt = if la ≠ [] then la else lt := by
  rw [pqrLoop.eq_def]
  simp only [hi, if_true]
  rw [if_neg hl]

theorem payloadsOf_int_nil (l : Str)
    (hl : pyStrip l ≠ []) (hi : isIntChars (pyStrip l) = true) :
    payloadsOf [l] = [] := by
  rw [payloadsOf.eq_def]
  simp only [hi, if_true]
  rw [if_neg hl]

theorem pqrLoop_int (l payload : Str) (rest2 : List Str) (la lt : Str)
    (hl : pyStrip l ≠ []) (hi : isIntChars (pyStrip l) = true) :
    pqrLoop (l :: payload :: rest2) la lt =
      pqrLoop rest2 (updateLongest (extractAnswerFromChunk payload) la lt).1
        (updateLongest (extractAnswerFromChunk payload) la lt).2 := by
  rw [pqrLoop.eq_def]
  simp only [hi, if_true]
  rw [if_neg hl]

theorem payloadsOf_int (l payload : Str) (rest2 : List Str)
    (hl : pyStrip l ≠ []) (hi : isIntChars (pyStrip l) = true) :
    payloadsOf (l :: payload :: rest2) = payload :: payloadsOf rest2 := by
  rw [payloadsOf.eq_def]
  simp only [hi, if_true]
  rw [if_neg hl]

theorem pqrLoop_direct (l : Str) (rest : List Str) (la lt : Str)
    (hl : pyStrip l ≠ []) (hi : isIntChars (pyStrip l) = false) :
    pqrLoop (l :: rest) la lt =
      pqrLoop rest (updateLongest (extractAnswerFromChunk (pyStrip l)) la lt).1
        (updateLongest (extractAnswerFromChunk (pyStrip l)) la lt).2 := by
  rw [pqrLoop.eq_def]
  simp only [hi, Bool.false_eq_true, if_false]
  rw [if_neg hl]

theorem payloadsOf_direct (l : Str) (rest : List Str)
    (hl : pyStrip l ≠ []) (hi : isIntChars (pyStrip l) = false) :
    payloadsOf (l :: rest) = pyStrip l :: payloadsOf rest := by
  rw [payloadsOf.eq_def]
  simp only [hi, Bool.false_eq_true, if_false]
  rw [if_neg hl]

theorem pqrLoop_eq (lines : List Str) (la lt : Str) :
    pqrLoop lines la lt =
      (let p := ((payloadsOf lines).filterMap extractAnswerFromChunk).foldl candStep (la, lt)
       if p.1 ≠ [] then p.1 else p.2) := by
  induction lines, la, lt using pqrLoop.induct
  case case1 la lt => simp [pqrLoop_nil, payloadsOf_nil]
  case case2 la lt h => simp [pqrLoop_nil, payloadsOf_nil]
  case case3 =>
    rename_i l rest la lt line h ih
    have h2 : pyStrip l = [] := h
    rw [pqrLoop_blank _ _ _ _ h2, payloadsOf_blank _ _ h2]
    exact ih
  case case4 =>
    rename_i l la lt line h1 h2 h3
    rw [pqrLoop_int_nil _ _ _ h1 h2, payloadsOf_int_nil _ h1 h2]
    simp
  case case5 =>
    rename_i l la lt line h1 h2 h3
    rw [pqrLoop_int_nil _ _ _ h1 h2, payloadsOf_int_nil _ h1 h2]
    simp
  case case6 =>
    rename_i l la lt line h1 h2 payload rest2 p ih
    rw [pqrLoop_int _ _ _ _ _ h1 h2, payloadsOf_int _ _ _ h1 h2]
    cases hE : extractAnswerFromChunk payload with
    | none =>
      have hp : p = (la, lt) := by
        rw [show p = updateLongest (extractAnswerFromChunk payload) la lt from rfl, hE]
        rfl
      rw [hp] at ih
      simp only [List.filterMap_cons, hE]
      simpa [updateLongest, hE] using ih
    | some c =>
      have hp : p = updateLongest (some c) la lt := by
        rw [show p = updateLongest (extractAnswerFromChunk payload) la lt from rfl, hE]
      rw [hp] at ih
      simp only [List.filterMap_cons, hE, List.foldl_cons]
      have hc : candStep (la, lt) c = updateLongest (some c) la lt := rfl
      rw [hc]
      simpa using ih
  case case7 =>
    rename_i l rest la lt line h1 h2 p ih
    have hi : isIntChars (pyStrip l) = false := by
      simpa using h2
    rw [pqrLoop_direct _ _ _ _ h1 hi, payloadsOf_direct _ _ h1 hi]
    cases hE : extractAnswerFromChunk (pyStrip l) with
    | none =>
      have hp : p = (la, lt) := by
        rw [show p = updateLongest (extractAnswerFromChunk (pyStrip l)) la lt from rfl, hE]
        rfl
      rw [hp] at ih
      simp only [List.filterMap_cons, hE]
      simpa [updateLongest, hE] using ih
    | some c =>
      have hp : p = updateLongest (some c) la lt := by
        rw [show p = updateLongest (extractAnswerFromChunk (pyStrip l)) la lt from rfl, hE]
      rw [hp] at ih
      simp only [List.filterMap_cons, hE, List.foldl_cons]
      have hc : candStep (la, lt) c = updateLongest (some c) la lt := rfl
      rw [hc]
      simpa using ih

theorem fold_first (cs : List (Str × Bool)) : ∀ (la lt : Str), (∀ c ∈ cs, c.1 ≠ []) →
    ((cs.foldl candStep (la, lt)).1 = la ∨
       (cs.foldl candStep (la, lt)).1 ∈ (cs.filter (fun c => c.2)).map Prod.fst) ∧
    la.length ≤ (cs.foldl candStep (la, lt)).1.length ∧
    (∀ c ∈ cs, c.2 = true → c.1.length ≤ (cs.foldl candStep (la, lt)).1.length) ∧
    (cs.filter (fun c => c.2) = [] → (cs.foldl candStep (la, lt)).1 = la) := by
  induction cs with
  | nil =>
    intro la lt _
    simp
  | cons c cs ih =>
    rintro la lt h
    obtain ⟨t, b⟩ := c
    have ht : t ≠ [] := h (t, b) (List.mem_cons_self _ _)
    have hrest : ∀ c ∈ cs, c.1 ≠ [] := fun c hc => h c (List.mem_cons_of_mem _ hc)
    rw [List.foldl_cons]
    cases b with
    | false =>
      have hstep : candStep (la, lt) (t, false) =
          (la, if lt.length < t.length then t else lt) := by
        simp [candStep, updateLongest, ht]
        split <;> rfl
      rw [hstep]
      obtain ⟨hmem, hla, hall, hnil⟩ := ih la (if lt.length < t.length then t else lt) hrest
      rw [List.filter_cons_of_neg (by simp)]
      refine ⟨hmem, hla, ?_, hnil⟩
      intro c hc hb
      rcases List.mem_cons.mp hc with rfl | hc2
      · simp at hb
      · exact hall c hc2 hb
    | true =>
      by_cases hlen : la.length < t.length
      · have hstep : candStep (la, lt) (t, true) = (t, lt) := by
          simp [candStep, updateLongest, ht, hlen]
        rw [hstep]
        obtain ⟨hmem, hla, hall, hnil⟩ := ih t lt hrest
        rw [List.filter_cons_of_pos (by rfl)]
        refine ⟨?_, le_trans (le_of_lt hlen) hla, ?_, ?_⟩
        · rcases hmem with he | hm
          · right
            rw [List.map_cons, he]
            exact List.mem_cons_self _ _
          · right
            rw [List.map_cons]
            exact List.mem_cons_of_mem _ hm
        · intro c hc hb
          rcases List.mem_cons.mp hc with rfl | hc2
          · exact hla
          · exact hall c hc2 hb
        · intro hfil
          exact absurd hfil (by simp)
      · have hstep : candStep (la, lt) (t, true) = (la, lt) := by
          simp [candStep, updateLongest, ht, hlen]
        rw [hstep]
        obtain ⟨hmem, hla, hall, hnil⟩ := ih la lt hrest
        rw [List.filter_cons_of_pos (by rfl)]
        refine ⟨?_, hla, ?_, ?_⟩
        · rcases hmem with he | hm
          · exact .inl he
          · right
            rw [List.map_cons]
            exact List.mem_cons_of_mem _ hm
        · intro c hc hb
          rcases List.mem_cons.mp hc with rfl | hc2
          · exact le_trans (Nat.le_of_not_lt hlen) hla
          · exact hall c hc2 hb
        · intro hfil
          exact absurd hfil (by simp)

theorem fold_second (cs : List (Str × Bool)) : ∀ (la lt : Str), (∀ c ∈ cs, c.1 ≠ []) →
    ((cs.foldl candStep (la, lt)).2 = lt ∨
       (cs.foldl candStep (la, lt)).2 ∈ (cs.filter (fun c => !c.2)).map Prod.fst) ∧
    lt.length ≤ (cs.foldl candStep (la, lt)).2.length ∧
    (∀ c ∈ cs, c.2 = false → c.1.length ≤ (cs.foldl candStep (la, lt)).2.length) ∧
    (cs.filter (fun c => !c.2) = [] → (cs.foldl candStep (la, lt)).2 = lt) := by
  induction cs with
  | nil =>
    intro la lt _
    simp
  | cons c cs ih =>
    rintro la lt h
    obtain ⟨t, b⟩ := c
    have ht : t ≠ [] := h (t, b) (List.mem_cons_self _ _)
    have hrest : ∀ c ∈ cs, c.1 ≠ [] := fun c hc => h c (List.mem_cons_of_mem _ hc)
    rw [List.foldl_cons]
    cases b with
    | true =>
      have hstep : candStep (la, lt) (t, true) =
          (if la.length < t.length then t else la, lt) := by
        simp [candStep, updateLongest, ht]
        split <;> rfl
      rw [hstep]
      obtain ⟨hmem, hlt, hall, hnil⟩ := ih (if la.length < t.length then t else la) lt hrest
      rw [List.filter_cons_of_neg (by simp)]
      refine ⟨hmem, hlt, ?_, hnil⟩
      intro c hc hb
      rcases List.mem_cons.mp hc with rfl | hc2
      · simp at hb
      · exact hall c hc2 hb
    | false =>
      by_cases hlen : lt.length < t.length
      · have hstep : candStep (la, lt) (t, false) = (la, t) := by
          simp [candStep, updateLongest, ht, hlen]
        rw [hstep]
        obtain ⟨hmem, hlt, hall, hnil⟩ := ih la t hrest
        rw [List.filter_cons_of_pos (by rfl)]
        refine ⟨?_, le_trans (le_of_lt hlen) hlt, ?_, ?_⟩
        · rcases hmem with he | hm
          · right
            rw [List.map_cons, he]
            exact List.mem_cons_self _ _
          · right
            rw [List.map_cons]
            exact List.mem_cons_of_mem _ hm
        · intro c hc hb
          rcases List.mem_cons.mp hc with rfl | hc2
          · exact hlt
          · exact hall c hc2 hb
        · intro hfil
          exact absurd hfil (by simp)
      · have hstep : candStep (la, lt) (t, false) = (la, lt) := by
          simp [candStep, updateLongest, ht, hlen]
        rw [hstep]
        obtain ⟨hmem, hlt, hall, hnil⟩ := ih la lt hrest
        rw [List.filter_cons_of_pos (by rfl)]
        refine ⟨?_, hlt, ?_, ?_⟩
        · rcases hmem with he | hm
          · exact .inl he
          · right
            rw [List.map_cons]
            exact List.mem_cons_of_mem _ hm
        · intro c hc hb
          rcases List.mem_cons.mp hc with rfl | hc2
          · exact le_trans (Nat.le_of_not_lt hlen) hlt
          · exact hall c hc2 hb
        · intro hfil
          exact absurd hfil (by simp)

theorem scanAnswerItems_some : ∀ (items : List Json) (c : Str × Bool),
    scanAnswerItems items = some c → 20 < c.1.length := by
  intro items
  induction items using scanAnswerItems.induct
  all_goals intro c h
  all_goals rw [scanAnswerItems.eq_def] at h
  all_goals simp only [*] at h
  all_goals (try simp at h)
  all_goals first
    | (subst h; assumption)
    | (apply_assumption; assumption)

theorem extractAnswerFromChunk_some : ∀ (s : Str) (c : Str × Bool),
    extractAnswerFromChunk s = some c → 20 < c.1.length := by
  intro s c h
  unfold extractAnswerFromChunk at h
  rcases hj : jsonLoads s with _ | j
  · rw [hj] at h
    cases h
  · rw [hj] at h
    rcases j with _ | b | n | st | items | kvs
    case arr =>
      rcases items with _ | ⟨i, rest⟩
      · cases h
      · exact scanAnswerItems_some _ _ h
    all_goals cases h

/-- C1: across all frames of a raw streaming response, every extracted
candidate text has length over 20, and `parse_query_response` returns a
maximal-length type-1 candidate when one exists, else a maximal-length
type-2 candidate when one exists, else the empty string — so texts of 20
characters or fewer are never returned and type-1 is preferred over type-2
independently of arrival order. -/
theorem claim_C1 (text : Str) :
    (∀ c ∈ streamCandidates text, 20 < c.1.length) ∧
    (((streamCandidates text).filter (fun c => c.2)).map Prod.fst ≠ [] →
      parse_query_response text ∈ ((streamCandidates text).filter (fun c => c.2)).map Prod.fst ∧
      ∀ t ∈ ((streamCandidates text).filter (fun c => c.2)).map Prod.fst,
        t.length ≤ (parse_query_response text).length) ∧
    (((streamCandidates text).filter (fun c => c.2)).map Prod.fst = [] →
      ((streamCandidates text).filter (fun c => !c.2)).map Prod.fst ≠ [] →
      parse_query_response text ∈ ((streamCandidates text).filter (fun c => !c.2)).map Prod.fst ∧
      ∀ t ∈ ((streamCandidates text).filter (fun c => !c.2)).map Prod.fst,
        t.length ≤ (parse_query_response text).length) ∧
    (((streamCandidates text).filter (fun c => c.2)).map Prod.fst = [] →
      ((streamCandidates text).filter (fun c => !c.2)).map Prod.fst = [] →
      parse_query_response text = []) := by
  have hcand : ∀ c ∈ streamCandidates text, 20 < c.1.length := by
    intro c hc
    rw [streamCandidates] at hc
    rcases List.mem_filterMap.mp hc with ⟨a, _, ha⟩
    exact extractAnswerFromChunk_some _ _ ha
  have hne : ∀ c ∈ streamCandidates text, c.1 ≠ [] := by
    intro c hc hnil
    have h20 := hcand c hc
    rw [hnil] at h20
    simp at h20
  have hres : parse_query_response text =
      (let p := (streamCandidates text).foldl candStep ([], [])
       if p.1 ≠ [] then p.1 else p.2) := by
    rw [parse_query_response, pqrLoop_eq]
    rfl
  obtain ⟨hmem1, _, hall1, hnil1⟩ := fold_first (streamCandidates text) [] [] hne
  obtain ⟨hmem2, _, hall2, hnil2⟩ := fold_second (streamCandidates text) [] [] hne
  refine ⟨hcand, ?_, ?_, ?_⟩
  · intro hans
    have hfil : (streamCandidates text).filter (fun c => c.2) ≠ [] := by
      intro hf
      exact hans (by rw [hf]; rfl)
    obtain ⟨c0, hc0⟩ := List.exists_mem_of_ne_nil _ hfil
    have hc0cs : c0 ∈ streamCandidates text := (List.mem_filter.mp hc0).1
    have hc0b : c0.2 = true := by simpa using (List.mem_filter.mp hc0).2
    have hP1len : 20 < ((streamCandidates text).foldl candStep ([], [])).1.length :=
      lt_of_lt_of_le (hcand c0 hc0cs) (hall1 c0 hc0cs hc0b)
    have hP1ne : ((streamCandidates text).foldl candStep ([], [])).1 ≠ [] := by
      intro hnil
      rw [hnil] at hP1len
      simp at hP1len
    have hresP : parse_query_response text =
        ((streamCandidates text).foldl candStep ([], [])).1 := by
      rw [hres]
      simp only [if_pos hP1ne]
    constructor
    · rw [hresP]
      rcases hmem1 with he | hm
      · exact absurd he hP1ne
      · exact hm
    · intro t ht
      rcases List.mem_map.mp ht with ⟨c, hcf, rfl⟩
      rw [hresP]
      exact hall1 c (List.mem_filter.mp hcf).1 (by simpa using (List.mem_filter.mp hcf).2)
  · intro hans hoth
    have hfilnil : (streamCandidates text).filter (fun c => c.2) = [] :=
      List.map_eq_nil_iff.mp hans
    have hP1 : ((streamCandidates text).foldl candStep ([], [])).1 = [] := hnil1 hfilnil
    have hresP : parse_query_response text =
        ((streamCandidates text).foldl candStep ([], [])).2 := by
      rw [hres]
      simp [hP1]
    have hfil : (streamCandidates text).filter (fun c => !c.2) ≠ [] := by
      intro hf
      exact hoth (by rw [hf]; rfl)
    obtain ⟨c0, hc0⟩ := List.exists_mem_of_ne_nil _ hfil
    have hc0cs : c0 ∈ streamCandidates text := (List.mem_filter.mp hc0).1
    have hc0b : c0.2 = false := by simpa using (List.mem_filter.mp hc0).2
    have hP2len : 20 < ((streamCandidates text).foldl candStep ([], [])).2.length :=
      lt_of_lt_of_le (hcand c0 hc0cs) (hall2 c0 hc0cs hc0b)
    have hP2ne : ((streamCandidates text).foldl candStep ([], [])).2 ≠ [] := by
      intro hnil
      rw [hnil] at hP2len
      simp at hP2len
    constructor
    · rw [hresP]
      rcases hmem2 with he | hm
      · exact absurd he hP2ne
      · exact hm
    · intro t ht
      rcases List.mem_map.mp ht with ⟨c, hcf, rfl⟩
      rw [hresP]
      exact hall2 c (List.mem_filter.mp hcf).1 (by simpa using (List.mem_filter.mp hcf).2)
  · intro hans hoth
    have hP1 : ((streamCandidates text).foldl candStep ([], [])).1 = [] :=
      hnil1 (List.map_eq_nil_iff.mp hans)
    have hP2 : ((streamCandidates text).foldl candStep ([], [])).2 = [] :=
      hnil2 (List.map_eq_nil_iff.mp hoth)
    rw [hres]
    simp [hP1, hP2]

theorem claim_C1_witness : parse_query_response [] = [] :=
  (claim_C1 []).2.2.2 rfl rfl

theorem extractFromItems_eq (rpcId : Str) : ∀ (items : List Json),
    extractFromItems rpcId items =
      (findEntryItems rpcId items).map
        (fun fields => if isAuthSigFields fields then Except.error ()
          else Except.ok (decodeResult (resultField fields))) := by
  intro items
  induction items using List.rec with
  | nil => rfl
  | cons i rest ih =>
    rw [extractFromItems.eq_def, findEntryItems.eq_def]
    rcases i with _ | b | n | st | fs | kvs <;> try exact ih
    rcases fs with _ | ⟨f0, _ | ⟨f1, _ | ⟨f2, rf⟩⟩⟩ <;> try exact ih
    by_cases hb : (beqJson f0 (.str (String.data "wrb.fr")) && beqJson f1 (.str rpcId)) = true
    · simp only [hb, if_true]
      rfl
    · simp only [Bool.not_eq_true] at hb
      simp only [hb, Bool.false_eq_true, if_false]
      exact ih

theorem extractFromFrames_eq (rpcId : Str) : ∀ (frames : List Json),
    extractFromFrames rpcId frames =
      (match findEntry rpcId frames with
       | none => Except.ok Json.null
       | some fields => if isAuthSigFields fields then Except.error ()
           else Except.ok (decodeResult (resultField fields))) := by
  intro frames
  induction frames with
  | nil => rfl
  | cons chunk rest ih =>
    rw [extractFromFrames.eq_def, findEntry.eq_def]
    rcases chunk with _ | b | n | st | items | kvs <;> try exact ih
    simp only [extractFromItems_eq]
    cases hf : findEntryItems rpcId items with
    | none =>
      simp only [hf, Option.map_none]
      exact ih
    | some fields =>
      simp only [hf, Option.map_some]
      rfl

theorem items_error_hasSig (rpcId : Str) : ∀ (items : List Json),
    extractFromItems rpcId items = some (Except.error ()) →
    items.any (fun item => match item with
      | Json.arr fields => beqJson (fields.getD 0 .null) (.str (String.data "wrb.fr")) &&
          beqJson (fields.getD 1 .null) (.str rpcId) && isAuthSigFields fields
      | _ => false) = true := by
  intro items
  induction items using extractFromItems.induct rpcId
  all_goals intro h
  all_goals rw [extractFromItems.eq_def] at h
  all_goals simp only [*] at h
  case case1 => simp at h
  case case2 =>
    rename_i f0 f1 f2 rf rest hb
    simp only [if_true] at h
    injection h with h2
    by_cases hs : isAuthSigFields (f0 :: f1 :: f2 :: rf) = true
    · have hb2 : beqJson f0 (.str (String.data "wrb.fr")) = true ∧
          beqJson f1 (.str rpcId) = true := by
        simpa using hb
      simp [List.any_cons, hb2.1, hb2.2, hs]
    · rw [if_neg hs] at h2
      simp at h2
  case case3 =>
    rename_i f0 f1 f2 rf rest hb ih
    simp only [Bool.false_eq_true, if_false] at h
    have hr := ih h
    rw [List.any_cons, hr, Bool.or_true]
  case case4 =>
    rename_i headJ rest hne ih
    have hr := ih h
    rw [List.any_cons, hr, Bool.or_true]

theorem extract_error_hasSig (rpcId : Str) : ∀ (frames : List Json),
    extractFromFrames rpcId frames = .error () → hasAuthSigEntry frames rpcId = true := by
  intro frames
  induction frames with
  | nil =>
    intro h
    simp [extractFromFrames] at h
  | cons chunk rest ih =>
    intro h
    rw [extractFromFrames.eq_def] at h
    rcases chunk with _ | b | n | st | items | kvs
    all_goals try
      (have hr := ih h
       unfold hasAuthSigEntry at hr ⊢
       rw [List.any_cons, hr, Bool.or_true])
    case arr =>
      cases he : extractFromItems rpcId items with
      | none =>
        simp only [he] at h
        have hr := ih h
        unfold hasAuthSigEntry at hr ⊢
        rw [List.any_cons, hr, Bool.or_true]
      | some r =>
        simp only [he] at h
        subst h
        have hi := items_error_hasSig rpcId items he
        unfold hasAuthSigEntry
        simp only [List.any_cons, Bool.or_eq_true]
        left
        exact hi

/-- C2 (amended): `extract_rpc_result` commits to the first entry across
the decoded frames whose first field is `"wrb.fr"` and whose second field
is the target method id: it raises Auth-Expired exactly when that first
matching entry carries the error-16 `"generic"` signature (checked before
the entry is used as a result), raising implies such a signature entry
exists for the target id, and with no matching entry the call returns an
absent result rather than an error.  The spec's converse direction — any
signature entry for the target id anywhere forces a raise — is false: a
preceding signature-free matching entry preempts it (see the
counterexample). -/
theorem claim_C2 (frames : List Json) (rpc_id : Str) :
    (extract_rpc_result frames rpc_id =
      match findEntry rpc_id frames with
      | none => Except.ok Json.null
      | some fields => if isAuthSigFields fields then Except.error ()
          else Except.ok (decodeResult (resultField fields))) ∧
    (extract_rpc_result frames rpc_id = Except.error () →
      hasAuthSigEntry frames rpc_id = true) ∧
    (findEntry rpc_id frames = none →
      extract_rpc_result frames rpc_id = Except.ok Json.null) := by
  refine ⟨extractFromFrames_eq rpc_id frames, extract_error_hasSig rpc_id frames, ?_⟩
  intro hn
  rw [extract_rpc_result, extractFromFrames_eq, hn]

theorem claim_C2_witness : extract_rpc_result [] (String.data "id") = Except.ok Json.null :=
  (claim_C2 [] (String.data "id")).2.2 rfl

/-- C2 counterexample: a frame holding a signature-free `"wrb.fr"` entry
for the target id ahead of an error-16 signature entry for the same id
makes `extract_rpc_result` return a result, not the Auth-Expired signal,
even though a matching signature entry is present. -/
theorem claim_C2_counterexample :
    hasAuthSigEntry
      [Json.arr [Json.arr [.str (String.data "wrb.fr"), .str (String.data "id"), .null],
                 Json.arr [.str (String.data "wrb.fr"), .str (String.data "id"), .null, .null,
                           .null, Json.arr [.num 16], .str (String.data "generic")]]]
      (String.data "id") = true ∧
    extract_rpc_result
      [Json.arr [Json.arr [.str (String.data "wrb.fr"), .str (String.data "id"), .null],
                 Json.arr [.str (String.data "wrb.fr"), .str (String.data "id"), .null, .null,
                           .null, Json.arr [.num 16], .str (String.data "generic")]]]
      (String.data "id") ≠ Except.error () :=
  ⟨rfl, fun h => by
    cases (show (Except.ok Json.null : Except Unit Json) = Except.error () from h)⟩

/-- C8: a first matching entry without the auth-error signature yields the
entry's third field double-decoded: a string field that parses as JSON
yields the parsed value, a string that fails to parse is returned raw, a
non-string field passes through unchanged; and with no matching entry in
any frame the result is absent (`None`), not an error. -/
theorem claim_C8 (frames : List Json) (rpc_id : Str) :
    (∀ fields, findEntry rpc_id frames = some fields → isAuthSigFields fields = false →
      extract_rpc_result frames rpc_id = Except.ok (decodeResult (resultField fields))) ∧
    (∀ s j, jsonLoads s = some j → decodeResult (.str s) = j) ∧
    (∀ s, jsonLoads s = none → decodeResult (.str s) = .str s) ∧
    (∀ v, (∀ s, v ≠ .str s) → decodeResult v = v) ∧
    (findEntry rpc_id frames = none →
      extract_rpc_result frames rpc_id = Except.ok Json.null) := by
  refine ⟨?_, ?_, ?_, ?_, ?_⟩
  · intro fields hf hsig
    rw [extract_rpc_result, extractFromFrames_eq, hf]
    simp [hsig]
  · intro s j h
    simp [decodeResult, h]
  · intro s h
    simp [decodeResult, h]
  · intro v hv
    rcases v with _ | b | n | st | xs | kvs
    case str => exact absurd rfl (hv st)
    all_goals rfl
  · intro hn
    rw [extract_rpc_result, extractFromFrames_eq, hn]

theorem claim_C8_witness :
    extract_rpc_result
      [Json.arr [Json.arr [.str (String.data "wrb.fr"), .str (String.data "id"),
        .str (String.data "[1]")]]] (String.data "id") =
      Except.ok (decodeResult (.str (String.data "[1]"))) ∧
    decodeResult (.str (String.data "[1]")) = Json.arr [.num 1] := by
  constructor
  · exact (claim_C8 [Json.arr [Json.arr [.str (String.data "wrb.fr"), .str (String.data "id"),
      .str (String.data "[1]")]]] (String.data "id")).1
      [.str (String.data "wrb.fr"), .str (String.data "id"), .str (String.data "[1]")] rfl rfl
  · exact (claim_C8 [] (String.data "id")).2.1 (String.data "[1]") (Json.arr [.num 1]) (by
      rw [show String.data "[1]" = jsonDumps (.arr [.num 1]) from by
        simp only [jsonDumps, serVal, serList, intToChars,
          natToChars_lt_ten (by norm_num : (1:ℕ) < 10)]
        decide]
      exact jsonLoads_dumps _)

theorem callRpc_retry_step (rpc_id : Str) (refresh : Option AuthenticationError)
    (status : Nat) (events : List NetEvent) (authRetried : Bool) (k : Nat)
    (hs : status ∈ RETRYABLE_STATUS_CODES) (hk : k < MAX_RETRIES) :
    callRpc rpc_id refresh (.httpError status :: events) authRetried k =
      ((callRpc rpc_id refresh events authRetried (k + 1)).1,
       retryDelay k :: (callRpc rpc_id refresh events authRetried (k + 1)).2) := by
  rw [callRpc.eq_def]
  simp only [hs, hk, if_true]
  rfl

theorem callRpc_exhaust (rpc_id : Str) (refresh : Option AuthenticationError)
    (status : Nat) (events : List NetEvent) (authRetried : Bool) (k : Nat)
    (hs : status ∈ RETRYABLE_STATUS_CODES) (hk : ¬ k < MAX_RETRIES) :
    callRpc rpc_id refresh (.httpError status :: events) authRetried k =
      (.apiServer status (MAX_RETRIES + 1), []) := by
  rw [callRpc.eq_def]
  simp only [hs, if_true]
  rw [if_neg hk]

theorem callRpc_nonretry (rpc_id : Str) (refresh : Option AuthenticationError)
    (status : Nat) (events : List NetEvent) (authRetried : Bool) (k : Nat)
    (hs : status ∉ RETRYABLE_STATUS_CODES) (h4 : ¬(status = 401 ∨ status = 403)) :
    callRpc rpc_id refresh (.httpError status :: events) authRetried k =
      (.apiHttp status, []) := by
  rw [callRpc.eq_def]
  simp only [hs, h4, if_false, false_and]

theorem callRpc_ok (rpc_id : Str) (refresh : Option AuthenticationError)
    (text : Str) (rest : List NetEvent) (authRetried : Bool) (k : Nat) (v : Json)
    (h : extract_rpc_result (parse_response text) rpc_id = Except.ok v) :
    callRpc rpc_id refresh (.ok text :: rest) authRetried k = (.value v, []) := by
  rw [callRpc.eq_def]
  simp only [h]
  rfl

/-- C4 (amended): the retryable server-error set is exactly
`{429, 500, 502, 503, 504}` — not all of 5xx.  For a status in that set
the call sleeps `min(1.0 * 2 ** k, 16.0)` seconds before retry `k + 1`
(non-decreasing, capped at the configured maximum), a fourth consecutive
retryable failure surfaces a Server-Error naming the final status after
`MAX_RETRIES + 1` attempts, three 503 failures followed by a success
succeed with the backoff trace `[1, 2, 4]`, and a status outside the set
that is not 401/403 fails immediately with no retry and no sleep. -/
theorem claim_C4 (status : Nat) (rpc_id : Str) (refresh : Option AuthenticationError)
    (events : List NetEvent) (authRetried : Bool) (k : Nat) :
    (status ∈ RETRYABLE_STATUS_CODES ↔ status = 429 ∨ status = 500 ∨ status = 502 ∨
      status = 503 ∨ status = 504) ∧
    (retryDelay k = min (RETRY_BASE_DELAY * 2 ^ k) RETRY_MAX_DELAY ∧
      retryDelay k ≤ retryDelay (k + 1) ∧ retryDelay k ≤ RETRY_MAX_DELAY) ∧
    (status ∈ RETRYABLE_STATUS_CODES → k < MAX_RETRIES →
      callRpc rpc_id refresh (.httpError status :: events) authRetried k =
        ((callRpc rpc_id refresh events authRetried (k + 1)).1,
         retryDelay k :: (callRpc rpc_id refresh events authRetried (k + 1)).2)) ∧
    (status ∈ RETRYABLE_STATUS_CODES →
      callRpc rpc_id refresh (List.replicate (MAX_RETRIES + 1) (.httpError status))
        authRetried 0 =
        (.apiServer status (MAX_RETRIES + 1), [retryDelay 0, retryDelay 1, retryDelay 2])) ∧
    (∀ text v, extract_rpc_result (parse_response text) rpc_id = Except.ok v →
      callRpc rpc_id refresh
        (List.replicate MAX_RETRIES (.httpError 503) ++ [.ok text]) authRetried 0 =
        (.value v, [retryDelay 0, retryDelay 1, retryDelay 2])) ∧
    (status ∉ RETRYABLE_STATUS_CODES → ¬(status = 401 ∨ status = 403) →
      callRpc rpc_id refresh (.httpError status :: events) authRetried k =
        (.apiHttp status, [])) := by
  refine ⟨?_, ⟨rfl, ?_, ?_⟩, ?_, ?_, ?_, ?_⟩
  · simp [RETRYABLE_STATUS_CODES]
  · unfold retryDelay
    exact min_le_min (by
      rw [RETRY_BASE_DELAY, one_mul, one_mul]
      exact pow_le_pow_right₀ (by norm_num) (Nat.le_succ k)) le_rfl
  · exact min_le_right _ _
  · exact callRpc_retry_step rpc_id refresh status events authRetried k
  · intro hs
    rw [show List.replicate (MAX_RETRIES + 1) (NetEvent.httpError status) =
      .httpError status :: .httpError status :: .httpError status ::
        [.httpError status] from rfl]
    rw [callRpc_retry_step _ _ _ _ _ _ hs (by decide),
        callRpc_retry_step _ _ _ _ _ _ hs (by decide),
        callRpc_retry_step _ _ _ _ _ _ hs (by decide),
        callRpc_exhaust _ _ _ _ _ _ hs (by decide)]
  · intro text v hv
    rw [show List.replicate MAX_RETRIES (NetEvent.httpError 503) ++ [NetEvent.ok text] =
      .httpError 503 :: .httpError 503 :: .httpError 503 :: [.ok text] from rfl]
    rw [callRpc_retry_step _ _ _ _ _ _ (by decide) (by decide),
        callRpc_retry_step _ _ _ _ _ _ (by decide) (by decide),
        callRpc_retry_step _ _ _ _ _ _ (by decide) (by decide),
        callRpc_ok _ _ _ _ _ _ _ hv]
  · exact callRpc_nonretry rpc_id refresh status events authRetried k

theorem claim_C4_witness :
    callRpc [] none (List.replicate (MAX_RETRIES + 1) (.httpError 503)) false 0 =
      (.apiServer 503 (MAX_RETRIES + 1), [retryDelay 0, retryDelay 1, retryDelay 2]) :=
  (claim_C4 503 [] none [] false 0).2.2.2.1 (by decide)

/-- C4 counterexample: 501 is a 5xx status but is not in
`RETRYABLE_STATUS_CODES`, and a call failing with 501 surfaces an HTTP
API failure immediately, with no retry and no backoff sleep. -/
theorem claim_C4_counterexample :
    (500 ≤ 501 ∧ 501 < 600) ∧ 501 ∉ RETRYABLE_STATUS_CODES ∧
    callRpc [] none [.httpError 501] false 0 = (.apiHttp 501, []) :=
  ⟨by omega, by decide, rfl⟩

theorem natToChars_sixteen : natToChars 16 = ['1', '6'] := by
  unfold natToChars
  rw [if_neg (by omega), Nat.digits_def' (by norm_num : (1:ℕ) < 10) (by norm_num : 0 < 16)]
  norm_num
  decide

/-- C5 (amended): every `AuthenticationError` the client constructs
carries a non-empty re-login hint, and the codec's Auth-Expired signal
arriving after the single permitted auth-refresh retry surfaces an
Authentication failure whose hint is the default re-login hint.  The
spec's claim that HTTP 401/403 after the used-up auth retry also surfaces
an Authentication failure is false: those surface a plain HTTP API
failure, which carries no hint (see the counterexample). -/
theorem claim_C5 (rpc_id : Str) (refresh : Option AuthenticationError)
    (events : List NetEvent) (k : Nat) (message hint : Str) :
    ((mkAuthenticationError message hint).hint ≠ []) ∧
    (∀ text rest, extract_rpc_result (parse_response text) rpc_id = Except.error () →
      callRpc rpc_id refresh (.ok text :: rest) true k =
        (.authError (mkAuthenticationError
          (String.data "Authentication expired after retry.") defaultAuthHint), []) ∧
      (mkAuthenticationError (String.data "Authentication expired after retry.")
        defaultAuthHint).hint = defaultAuthHint) ∧
    (∀ status, (status = 401 ∨ status = 403) →
      callRpc rpc_id refresh (.httpError status :: events) true k =
        (.apiHttp status, [])) := by
  refine ⟨?_, ?_, ?_⟩
  · unfold mkAuthenticationError
    by_cases hh : hint = []
    · rw [if_pos hh]
      show defaultAuthHint ≠ []
      decide
    · rw [if_neg hh]
      exact hh
  · intro text rest h
    refine ⟨?_, rfl⟩
    rw [callRpc.eq_def]
    simp only [h]
    rfl
  · intro status h4
    have hs : status ∉ RETRYABLE_STATUS_CODES := by
      rcases h4 with rfl | rfl <;> decide
    rw [callRpc.eq_def]
    simp only [hs, if_false]
    rw [if_neg (fun hc => by cases hc.2)]

theorem claim_C5_witness :
    callRpc (String.data "id") none
      [.ok (jsonDumps (Json.arr [Json.arr [.str (String.data "wrb.fr"),
        .str (String.data "id"), .null, .null, .null, Json.arr [.num 16],
        .str (String.data "generic")]]))] true 0 =
      (.authError (mkAuthenticationError
        (String.data "Authentication expired after retry.") defaultAuthHint), []) ∧
    (mkAuthenticationError (String.data "Authentication expired after retry.")
      defaultAuthHint).hint = defaultAuthHint := by
  refine (claim_C5 (String.data "id") none [] 0 [] []).2.1
    (jsonDumps (Json.arr [Json.arr [.str (String.data "wrb.fr"),
      .str (String.data "id"), .null, .null, .null, Json.arr [.num 16],
      .str (String.data "generic")]])) [] ?_
  have hdump : jsonDumps (Json.arr [Json.arr [.str (String.data "wrb.fr"),
      .str (String.data "id"), .null, .null, .null, Json.arr [.num 16],
      .str (String.data "generic")]]) =
      String.data "[[\x22wrb.fr\x22,\x22id\x22,null,null,null,[16],\x22generic\x22]]" := by
    simp only [jsonDumps, serVal, serList, intToChars, natToChars_sixteen]
    decide
  rw [hdump]
  have hparse : parse_response
      (String.data "[[\x22wrb.fr\x22,\x22id\x22,null,null,null,[16],\x22generic\x22]]") =
      [Json.arr [Json.arr [.str (String.data "wrb.fr"),
        .str (String.data "id"), .null, .null, .null, Json.arr [.num 16],
        .str (String.data "generic")]]] := by
    show processLines
      [String.data "[[\x22wrb.fr\x22,\x22id\x22,null,null,null,[16],\x22generic\x22]]"] = _
    rw [processLines_direct _ _ (by decide) (by decide) (by decide)]
    rw [← hdump, jsonLoads_dumps]
    rfl
  rw [hparse]
  rfl

/-- C5 counterexample: HTTP 401 received after the single auth-refresh
retry has been used surfaces a plain HTTP API failure (`APIError`), not an
Authentication failure, so no re-login hint accompanies it. -/
theorem claim_C5_counterexample :
    callRpc [] none [.httpError 401] true 0 = (.apiHttp 401, []) ∧
    ∀ e, (callRpc [] none [.httpError 401] true 0).1 ≠ CallResult.authError e := by
  refine ⟨rfl, ?_⟩
  intro e h
  rw [show (callRpc [] none [.httpError 401] true 0).1 = .apiHttp 401 from rfl] at h
  cases h

theorem cacheGet_cachePut : ∀ (cache : ConversationCache) (cid : Str)
    (ts : List ConversationTurn), cacheGet (cachePut cache cid ts) cid = ts := by
  intro cache cid ts
  induction cache with
  | nil => simp [cachePut, cacheGet]
  | cons p rest ih =>
    by_cases h : (p.1 == cid) = true
    · simp [cachePut, cacheGet, h]
    · simp [cachePut, cacheGet, h, ih]

theorem cacheGet_cacheTurn (cache : ConversationCache) (cid q a : Str) :
    cacheGet (cacheTurn cache cid q a) cid =
      cacheGet cache cid ++ [⟨q, a, (cacheGet cache cid).length + 1⟩] := by
  unfold cacheTurn
  rw [cacheGet_cachePut]

/-- C6: a query without a conversation id mints a new conversation: turn
number 1, not a follow-up, no history rendered; a second query reusing the
returned id is turn 2, a follow-up, and the history rendered for it is
exactly the turn-1 answer-record followed by the turn-1 question-record. -/
theorem claim_C6 (cache : ConversationCache) (q1 q2 fresh r1 r2 : Str)
    (hfresh : cacheGet cache fresh = [])
    (ha1 : parse_query_response r1 ≠ [])
    (ha2 : parse_query_response r2 ≠ []) :
    (query cache q1 none fresh r1).1.turn_number = 1 ∧
    (query cache q1 none fresh r1).1.is_follow_up = false ∧
    (query cache q1 none fresh r1).1.conversation_id = fresh ∧
    (query cache q1 none fresh r1).2.2 = none ∧
    (query (query cache q1 none fresh r1).2.1 q2 (some fresh) fresh r2).1.turn_number = 2 ∧
    (query (query cache q1 none fresh r1).2.1 q2 (some fresh) fresh r2).1.is_follow_up
      = true ∧
    (query (query cache q1 none fresh r1).2.1 q2 (some fresh) fresh r2).2.2 =
      some [Json.arr [.str (parse_query_response r1), .null, .num 2],
            Json.arr [.str q1, .null, .num 1]] := by
  have e1 : query cache q1 none fresh r1 =
      (⟨parse_query_response r1, fresh,
        (cacheGet (cacheTurn cache fresh q1 (parse_query_response r1)) fresh).length,
        false⟩,
       cacheTurn cache fresh q1 (parse_query_response r1), none) := by
    simp [query, ha1]
  have hget1 : cacheGet (cacheTurn cache fresh q1 (parse_query_response r1)) fresh =
      [⟨q1, parse_query_response r1, 1⟩] := by
    rw [cacheGet_cacheTurn, hfresh]
    rfl
  have e2 : query (cacheTurn cache fresh q1 (parse_query_response r1)) q2
      (some fresh) fresh r2 =
      (⟨parse_query_response r2, fresh,
        (cacheGet (cacheTurn (cacheTurn cache fresh q1 (parse_query_response r1))
          fresh q2 (parse_query_response r2)) fresh).length, true⟩,
       cacheTurn (cacheTurn cache fresh q1 (parse_query_response r1)) fresh q2
         (parse_query_response r2),
       buildConversationHistory (cacheTurn cache fresh q1 (parse_query_response r1))
         fresh) := by
    simp [query, ha2]
  have hhist : buildConversationHistory
      (cacheTurn cache fresh q1 (parse_query_response r1)) fresh =
      some [Json.arr [.str (parse_query_response r1), .null, .num 2],
            Json.arr [.str q1, .null, .num 1]] := by
    unfold buildConversationHistory
    rw [hget1]
    rfl
  have hget2 : cacheGet (cacheTurn (cacheTurn cache fresh q1 (parse_query_response r1))
      fresh q2 (parse_query_response r2)) fresh =
      [⟨q1, parse_query_response r1, 1⟩,
       ⟨q2, parse_query_response r2, 2⟩] := by
    rw [cacheGet_cacheTurn, hget1]
    rfl
  refine ⟨?_, ?_, ?_, ?_, ?_, ?_, ?_⟩
  · rw [e1]
    show (cacheGet (cacheTurn cache fresh q1 (parse_query_response r1)) fresh).length = 1
    rw [hget1]
    rfl
  · rw [e1]
  · rw [e1]
  · rw [e1]
  · rw [e1]
    show (query (cacheTurn cache fresh q1 (parse_query_response r1)) q2
      (some fresh) fresh r2).1.turn_number = 2
    rw [e2]
    show (cacheGet (cacheTurn (cacheTurn cache fresh q1 (parse_query_response r1))
      fresh q2 (parse_query_response r2)) fresh).length = 2
    rw [hget2]
    rfl
  · rw [e1]
    show (query (cacheTurn cache fresh q1 (parse_query_response r1)) q2
      (some fresh) fresh r2).1.is_follow_up = true
    rw [e2]
  · rw [e1]
    show (query (cacheTurn cache fresh q1 (parse_query_response r1)) q2
      (some fresh) fresh r2).2.2 =
      some [Json.arr [.str (parse_query_response r1), .null, .num 2],
            Json.arr [.str q1, .null, .num 1]]
    rw [e2]
    show buildConversationHistory (cacheTurn cache fresh q1 (parse_query_response r1))
      fresh = _
    rw [hhist]

theorem dumps_qr_inner :
    jsonDumps (.arr [.str (String.data "abcdefghijklmnopqrstu")]) =
      ['[', '\x22', 'a', 'b', 'c', 'd', 'e', 'f', 'g', 'h', 'i', 'j', 'k', 'l', 'm', 'n', 'o', 'p', 'q', 'r', 's', 't', 'u', '\x22', ']'] := by
  simp only [jsonDumps, serVal, serList]
  decide

theorem dumps_qr_outer :
    jsonDumps (.arr [.arr [.str (String.data "wrb.fr"), .null,
        .str (String.data "[\x22abcdefghijklmnopqrstu\x22]")]]) =
      String.data "[[\x22wrb.fr\x22,null,\x22[\\\x22abcdefghijklmnopqrstu\\\x22]\x22]]" := by
  simp only [jsonDumps, serVal, serList]
  decide

theorem extract_qr_sample :
    extractAnswerFromChunk
      (String.data "[[\x22wrb.fr\x22,null,\x22[\\\x22abcdefghijklmnopqrstu\\\x22]\x22]]") =
      some (String.data "abcdefghijklmnopqrstu", false) := by
  unfold extractAnswerFromChunk
  rw [← dumps_qr_outer, jsonLoads_dumps]
  show scanAnswerItems [Json.arr [.str (String.data "wrb.fr"), .null,
    .str (String.data "[\x22abcdefghijklmnopqrstu\x22]")]] = _
  rw [scanAnswerItems.eq_def]
  simp only [show beqJson (Json.str (String.data "wrb.fr"))
    (Json.str (String.data "wrb.fr")) = true from rfl, if_true]
  rw [← dumps_qr_inner, jsonLoads_dumps]
  show (if 20 < (String.data "abcdefghijklmnopqrstu").length then
      some (String.data "abcdefghijklmnopqrstu", false) else scanAnswerItems []) = _
  rw [if_pos (by decide : 20 < (String.data "abcdefghijklmnopqrstu").length)]

theorem parse_qr_sample :
    parse_query_response
      (String.data "[[\x22wrb.fr\x22,null,\x22[\\\x22abcdefghijklmnopqrstu\\\x22]\x22]]") =
      String.data "abcdefghijklmnopqrstu" := by
  show pqrLoop
    [String.data "[[\x22wrb.fr\x22,null,\x22[\\\x22abcdefghijklmnopqrstu\\\x22]\x22]]"]
    [] [] = _
  rw [pqrLoop_direct _ _ _ _ (by decide) (by decide)]
  rw [show pyStrip
      (String.data "[[\x22wrb.fr\x22,null,\x22[\\\x22abcdefghijklmnopqrstu\\\x22]\x22]]") =
      String.data "[[\x22wrb.fr\x22,null,\x22[\\\x22abcdefghijklmnopqrstu\\\x22]\x22]]"
    from by decide]
  rw [extract_qr_sample]
  rfl

theorem claim_C6_witness :
    (query [] (String.data "q1") none (String.data "cid") (String.data "[[\x22wrb.fr\x22,null,\x22[\\\x22abcdefghijklmnopqrstu\\\x22]\x22]]")).1.turn_number = 1 ∧
    (query [] (String.data "q1") none (String.data "cid") (String.data "[[\x22wrb.fr\x22,null,\x22[\\\x22abcdefghijklmnopqrstu\\\x22]\x22]]")).1.is_follow_up = false ∧
    (query [] (String.data "q1") none (String.data "cid") (String.data "[[\x22wrb.fr\x22,null,\x22[\\\x22abcdefghijklmnopqrstu\\\x22]\x22]]")).1.conversation_id = String.data "cid" ∧
    (query [] (String.data "q1") none (String.data "cid") (String.data "[[\x22wrb.fr\x22,null,\x22[\\\x22abcdefghijklmnopqrstu\\\x22]\x22]]")).2.2 = none ∧
    (query (query [] (String.data "q1") none (String.data "cid") (String.data "[[\x22wrb.fr\x22,null,\x22[\\\x22abcdefghijklmnopqrstu\\\x22]\x22]]")).2.1 (String.data "q2") (some (String.data "cid")) (String.data "cid") (String.data "[[\x22wrb.fr\x22,null,\x22[\\\x22abcdefghijklmnopqrstu\\\x22]\x22]]")).1.turn_number = 2 ∧
    (query (query [] (String.data "q1") none (String.data "cid") (String.data "[[\x22wrb.fr\x22,null,\x22[\\\x22abcdefghijklmnopqrstu\\\x22]\x22]]")).2.1 (String.data "q2") (some (String.data "cid")) (String.data "cid") (String.data "[[\x22wrb.fr\x22,null,\x22[\\\x22abcdefghijklmnopqrstu\\\x22]\x22]]")).1.is_follow_up = true ∧
    (query (query [] (String.data "q1") none (String.data "cid") (String.data "[[\x22wrb.fr\x22,null,\x22[\\\x22abcdefghijklmnopqrstu\\\x22]\x22]]")).2.1 (String.data "q2") (some (String.data "cid")) (String.data "cid") (String.data "[[\x22wrb.fr\x22,null,\x22[\\\x22abcdefghijklmnopqrstu\\\x22]\x22]]")).2.2 =
      some [Json.arr [.str (parse_query_response (String.data "[[\x22wrb.fr\x22,null,\x22[\\\x22abcdefghijklmnopqrstu\\\x22]\x22]]")), .null, .num 2],
            Json.arr [.str (String.data "q1"), .null, .num 1]] :=
  claim_C6 [] (String.data "q1") (String.data "q2") (String.data "cid") (String.data "[[\x22wrb.fr\x22,null,\x22[\\\x22abcdefghijklmnopqrstu\\\x22]\x22]]") (String.data "[[\x22wrb.fr\x22,null,\x22[\\\x22abcdefghijklmnopqrstu\\\x22]\x22]]") rfl
    (by rw [parse_qr_sample]; decide) (by rw [parse_qr_sample]; decide)

/-- C10 (implicit): an empty decoded answer appends no conversation turn —
the cache is unchanged and the returned turn number is the count already
stored for that conversation id (0 for a fresh one); a non-empty answer
appends exactly one turn and increments the count. -/
theorem claim_C10 (cache : ConversationCache) (q : Str) (conversation_id : Option Str)
    (fresh : Str) (r : Str) :
    (parse_query_response r = [] →
      (query cache q conversation_id fresh r).2.1 = cache ∧
      (query cache q conversation_id fresh r).1.turn_number =
        (cacheGet cache (conversation_id.getD fresh)).length) ∧
    (parse_query_response r ≠ [] →
      (query cache q conversation_id fresh r).2.1 =
        cacheTurn cache (conversation_id.getD fresh) q (parse_query_response r) ∧
      (query cache q conversation_id fresh r).1.turn_number =
        (cacheGet cache (conversation_id.getD fresh)).length + 1) := by
  constructor
  · intro h0
    constructor
    · show (query cache q conversation_id fresh r).2.1 = cache
      simp [query, h0]
    · show (query cache q conversation_id fresh r).1.turn_number = _
      simp [query, h0]
  · intro h1
    constructor
    · show (query cache q conversation_id fresh r).2.1 = _
      simp [query, h1]
    · show (query cache q conversation_id fresh r).1.turn_number = _
      simp [query, h1, cacheGet_cacheTurn]

theorem claim_C10_witness :
    (query [] (String.data "q") none (String.data "cid") []).2.1 = [] ∧
    (query [] (String.data "q") none (String.data "cid") []).1.turn_number =
      (cacheGet [] ((none : Option Str).getD (String.data "cid"))).length :=
  (claim_C10 [] (String.data "q") none (String.data "cid") []).1 rfl
